import Mathlib

/-!
Shallow embedding of the `commitment_nft` Soroban contract
(`src/contracts/commitment_nft/src/lib.rs`).

Addresses are modelled as `Nat`, `u32`/`u64` values as `Nat`, `i128` as `Int`
(the contract only compares amounts with 0, so overflow is irrelevant here),
and the host's keyed storage maps as association lists over `Nat` keys.
The ledger clock is passed explicitly as a `now : Nat` argument where the
contract reads `e.ledger().timestamp()`.  Authorization (`require_auth`) is an
external collaborator in the spec and is not modelled: the functions below
describe the behaviour of authorized calls.
-/

namespace CommitmentNFT

/-- Lookup in an association list: the value of the first pair whose key is
`k`, mirroring a keyed storage `get`. -/
def alGet? {β : Type} : List (Nat × β) → Nat → Option β
  | [], _ => none
  | (k', v) :: t, k => if k' = k then some v else alGet? t k

/-- Lookup with a default value, mirroring `get(..).unwrap_or(d)`. -/
def alGetD {β : Type} (l : List (Nat × β)) (k : Nat) (d : β) : β :=
  (alGet? l k).getD d

/-- Store under key `k`, mirroring a keyed storage `set`: replaces the first
pair with key `k`, or appends a new pair when the key is absent. -/
def alSet {β : Type} : List (Nat × β) → Nat → β → List (Nat × β)
  | [], k, v => [(k, v)]
  | (k', v') :: t, k, v => if k' = k then (k, v) :: t else (k', v') :: alSet t k v

/-- Keys of an association list. -/
def alKeys {β : Type} (l : List (Nat × β)) : List Nat :=
  l.map Prod.fst

/-- Sum of all stored values of a `Nat`-valued association list. -/
def alValsSum (l : List (Nat × Nat)) : Nat :=
  (l.map Prod.snd).sum

/-- Contract errors of `commitment_nft` (`ContractError` in the source). -/
inductive ContractError
  | NotInitialized
  | AlreadyInitialized
  | TokenNotFound
  | InvalidTokenId
  | NotOwner
  | NotAuthorized
  | TransferNotAllowed
  | AlreadySettled
  | NotExpired
  | InvalidDuration
  | InvalidMaxLoss
  | InvalidCommitmentType
  | InvalidAmount
  | ReentrancyDetected
  deriving DecidableEq, Repr

/-- Numeric error codes, matching the `#[repr(u32)]` discriminants. -/
def ContractError.code : ContractError → Nat
  | .NotInitialized => 1
  | .AlreadyInitialized => 2
  | .TokenNotFound => 3
  | .InvalidTokenId => 4
  | .NotOwner => 5
  | .NotAuthorized => 6
  | .TransferNotAllowed => 7
  | .AlreadySettled => 8
  | .NotExpired => 9
  | .InvalidDuration => 10
  | .InvalidMaxLoss => 11
  | .InvalidCommitmentType => 12
  | .InvalidAmount => 13
  | .ReentrancyDetected => 14

/-- `CommitmentMetadata` from the source. -/
structure CommitmentMetadata where
  commitment_id : String
  duration_days : Nat
  max_loss_percent : Nat
  commitment_type : String
  created_at : Nat
  expires_at : Nat
  initial_amount : Int
  asset_address : Nat
  deriving DecidableEq, Repr

/-- `CommitmentNFT` record from the source. -/
structure NFT where
  owner : Nat
  token_id : Nat
  metadata : CommitmentMetadata
  is_active : Bool
  early_exit_penalty : Nat
  deriving DecidableEq, Repr

/-- `TransferParams` from the source (`from`/`to` are spelled `frm`/`toAddr`). -/
structure TransferParams where
  frm : Nat
  toAddr : Nat
  token_id : Nat
  deriving DecidableEq, Repr

/-- `BatchError` from `shared_utils`, as used by `batch_transfer`. -/
structure BatchError where
  index : Nat
  error_code : Nat
  context : String
  deriving DecidableEq, Repr

/-- `BatchMode` from `shared_utils`. -/
inductive BatchMode
  | Atomic
  | BestEffort
  deriving DecidableEq, Repr

/-- Modelled from the spec: `shared_utils::BatchResultVoid` is not under
`src/`; the spec says a batch's "final result reports succeeded count plus
(index, error) pairs", and the contract builds it with `failure(errors)` on
an abort and `partial(count, errors)` at the end of a run. -/
inductive BatchResultVoid
  | fail (errors : List BatchError)
  | done (succeeded : Nat) (errors : List BatchError)
  deriving DecidableEq, Repr

/-- Modelled from the spec: the configured batch-size ceiling of
`shared_utils::BatchProcessor` ("a fixed configured maximum"); the concrete
value is not in `src/`, only that it is a fixed constant. -/
def MAX_BATCH_SIZE : Nat := 100

/-- Modelled from the spec: the error code `enforce_batch_limits` returns for
an oversized batch ("fails with a size-ceiling error"); its concrete value is
not in `src/`. -/
def BATCH_SIZE_ERROR_CODE : Nat := 1000

/-- Modelled from the spec: `BatchProcessor::enforce_batch_limits(size, ..)`
"fails with a size-ceiling error above a fixed configured maximum". -/
def enforce_batch_limits (size : Nat) : Bool :=
  size ≤ MAX_BATCH_SIZE

/-- The contract's keyed storage: `Admin`, `TokenCounter`, `NFT(id)`,
`OwnerBalance(addr)`, `OwnerTokens(addr)`, `TokenIds`, `ReentrancyGuard`. -/
structure Storage where
  admin : Option Nat
  tokenCounter : Nat
  nfts : List (Nat × NFT)
  balances : List (Nat × Nat)
  ownerTokens : List (Nat × List Nat)
  tokenIds : List Nat
  guard : Bool
  deriving DecidableEq, Repr

/-- Storage before `initialize` has run: no keys set; reads fall back to
their `unwrap_or` defaults. -/
def emptyStorage : Storage :=
  { admin := none, tokenCounter := 0, nfts := [], balances := []
    ownerTokens := [], tokenIds := [], guard := false }

/-- Balance counter of `owner` (`OwnerBalance`, `unwrap_or(0)`). -/
def Storage.balanceOf (s : Storage) (owner : Nat) : Nat :=
  alGetD s.balances owner 0

/-- Token list of `owner` (`OwnerTokens`, `unwrap_or(Vec::new)`). -/
def Storage.tokensOf (s : Storage) (owner : Nat) : List Nat :=
  alGetD s.ownerTokens owner []

/-- `initialize(e, admin)`. -/
def init_contract (s : Storage) (admin : Nat) : Except ContractError Unit × Storage :=
  if s.admin.isSome then
    (.error .AlreadyInitialized, s)
  else
    (.ok (), { s with admin := some admin, tokenCounter := 0, tokenIds := [] })

/-- `is_valid_commitment_type`. -/
def is_valid_commitment_type (commitment_type : String) : Bool :=
  commitment_type = "safe" ∨ commitment_type = "balanced" ∨ commitment_type = "aggressive"

/-- `mint(e, owner, commitment_id, duration_days, max_loss_percent,
commitment_type, initial_amount, asset_address, early_exit_penalty)`;
`now` is the ledger timestamp at the time of the call. -/
def mint (s : Storage) (now : Nat) (owner : Nat) (commitment_id : String)
    (duration_days max_loss_percent : Nat) (commitment_type : String)
    (initial_amount : Int) (asset_address : Nat) (early_exit_penalty : Nat) :
    Except ContractError Nat × Storage :=
  if s.guard then
    (.error .ReentrancyDetected, s)
  else
    let s1 : Storage := { s with guard := true }
    if s1.admin.isNone then
      (.error .NotInitialized, { s1 with guard := false })
    else if duration_days = 0 then
      (.error .InvalidDuration, { s1 with guard := false })
    else if max_loss_percent > 100 then
      (.error .InvalidMaxLoss, { s1 with guard := false })
    else if ¬ is_valid_commitment_type commitment_type then
      (.error .InvalidCommitmentType, { s1 with guard := false })
    else if initial_amount ≤ 0 then
      (.error .InvalidAmount, { s1 with guard := false })
    else
      let token_id := s1.tokenCounter
      let s2 := { s1 with tokenCounter := token_id + 1 }
      let created_at := now
      let expires_at := created_at + duration_days * 86400
      let metadata : CommitmentMetadata :=
        { commitment_id, duration_days, max_loss_percent, commitment_type
          created_at, expires_at, initial_amount, asset_address }
      let nft : NFT :=
        { owner, token_id, metadata, is_active := true, early_exit_penalty }
      let s3 := { s2 with nfts := alSet s2.nfts token_id nft }
      let current_balance := alGetD s3.balances owner 0
      let s4 := { s3 with balances := alSet s3.balances owner (current_balance + 1) }
      let owner_tokens := alGetD s4.ownerTokens owner []
      let s5 := { s4 with ownerTokens := alSet s4.ownerTokens owner (owner_tokens ++ [token_id]) }
      let s6 := { s5 with tokenIds := s5.tokenIds ++ [token_id] }
      (.ok token_id, { s6 with guard := false })

/-- `transfer(e, from, to, token_id)`. -/
def transfer (s : Storage) (frm toAddr token_id : Nat) :
    Except ContractError Unit × Storage :=
  if s.guard then
    (.error .ReentrancyDetected, s)
  else
    let s1 : Storage := { s with guard := true }
    match alGet? s1.nfts token_id with
    | none => (.error .TokenNotFound, { s1 with guard := false })
    | some nft =>
      if nft.owner ≠ frm then
        (.error .NotOwner, { s1 with guard := false })
      else
        let s2 := { s1 with nfts := alSet s1.nfts token_id { nft with owner := toAddr } }
        let from_balance := alGetD s2.balances frm 0
        let to_balance := alGetD s2.balances toAddr 0
        let s3 :=
          if from_balance > 0 then
            { s2 with balances := alSet s2.balances frm (from_balance - 1) }
          else s2
        let s4 := { s3 with balances := alSet s3.balances toAddr (to_balance + 1) }
        let from_tokens := alGetD s4.ownerTokens frm []
        let s5 := { s4 with ownerTokens := alSet s4.ownerTokens frm (from_tokens.erase token_id) }
        let to_tokens := alGetD s5.ownerTokens toAddr []
        let s6 := { s5 with ownerTokens := alSet s5.ownerTokens toAddr (to_tokens ++ [token_id]) }
        (.ok (), { s6 with guard := false })

/-- `settle(e, token_id)`; `now` is the ledger timestamp. -/
def settle (s : Storage) (now : Nat) (token_id : Nat) :
    Except ContractError Unit × Storage :=
  if s.guard then
    (.error .ReentrancyDetected, s)
  else
    let s1 : Storage := { s with guard := true }
    match alGet? s1.nfts token_id with
    | none => (.error .TokenNotFound, { s1 with guard := false })
    | some nft =>
      if ¬ nft.is_active then
        (.error .AlreadySettled, { s1 with guard := false })
      else if now < nft.metadata.expires_at then
        (.error .NotExpired, { s1 with guard := false })
      else
        let s2 := { s1 with nfts := alSet s1.nfts token_id { nft with is_active := false } }
        (.ok (), { s2 with guard := false })

/-- The `if !owner_tokens_updates.contains_key(addr) { ..load from storage.. }`
step of the batch loop: cache the stored token list of `addr` unless already
cached. -/
def cacheLoad (toks0 cache : List (Nat × List Nat)) (addr : Nat) :
    List (Nat × List Nat) :=
  if (alGet? cache addr).isNone then alSet cache addr (alGetD toks0 addr []) else cache

/-- Result of the per-entry loop of `batch_transfer`: either an Atomic-mode
abort (carrying the NFT writes already flushed to storage), or the end of the
loop with the accumulated caches. -/
inductive BatchLoopResult
  | aborted (errors : List BatchError) (nfts : List (Nat × NFT))
  | finished (nfts : List (Nat × NFT)) (deltas : List (Nat × Int))
      (cache : List (Nat × List Nat)) (errors : List BatchError) (succeeded : Nat)

/-- The `for i in 0..batch_size` loop of `batch_transfer`.  `toks0` is the
stored `OwnerTokens` map, which the loop only reads (list writes are flushed
after the loop); NFT records are written to storage immediately; balance
deltas and owner-token-list edits are accumulated in `deltas` and `cache`. -/
def batchGo (toks0 : List (Nat × List Nat)) (mode : BatchMode) :
    List TransferParams → Nat → List (Nat × NFT) → List (Nat × Int) →
    List (Nat × List Nat) → List BatchError → Nat → BatchLoopResult
  | [], _, nfts, deltas, cache, errors, succeeded =>
    .finished nfts deltas cache errors succeeded
  | p :: rest, i, nfts, deltas, cache, errors, succeeded =>
    match alGet? nfts p.token_id with
    | none =>
      let err : BatchError := ⟨i, ContractError.TokenNotFound.code, "token_not_found"⟩
      if mode = BatchMode.Atomic then
        .aborted (errors ++ [err]) nfts
      else
        batchGo toks0 mode rest (i + 1) nfts deltas cache (errors ++ [err]) succeeded
    | some nft =>
      if nft.owner ≠ p.frm then
        let err : BatchError := ⟨i, ContractError.NotOwner.code, "not_owner"⟩
        if mode = BatchMode.Atomic then
          .aborted (errors ++ [err]) nfts
        else
          batchGo toks0 mode rest (i + 1) nfts deltas cache (errors ++ [err]) succeeded
      else
        let nfts' := alSet nfts p.token_id { nft with owner := p.toAddr }
        let from_delta := alGetD deltas p.frm 0 - 1
        let d1 := alSet deltas p.frm from_delta
        let to_delta := alGetD d1 p.toAddr 0 + 1
        let d2 := alSet d1 p.toAddr to_delta
        let c1 := cacheLoad toks0 cache p.frm
        let c2 := cacheLoad toks0 c1 p.toAddr
        let from_tokens := alGetD c2 p.frm []
        let c3 := alSet c2 p.frm (from_tokens.erase p.token_id)
        let to_tokens := alGetD c3 p.toAddr []
        let c4 := alSet c3 p.toAddr (to_tokens ++ [p.token_id])
        batchGo toks0 mode rest (i + 1) nfts' d2 c4 errors (succeeded + 1)

/-- Flush of the accumulated balance deltas: for each `(address, delta)`
pair, `new_balance = (current_balance + delta).max(0)` written back as a
`u32`.  Soroban maps iterate in key order; the keys are pairwise distinct and
the writes independent, so folding in list order is observationally the same. -/
def applyDeltas (balances : List (Nat × Nat)) (deltas : List (Nat × Int)) :
    List (Nat × Nat) :=
  deltas.foldl
    (fun b ad => alSet b ad.1 (max (((alGetD b ad.1 0 : Nat) : Int) + ad.2) 0).toNat)
    balances

/-- Flush of the cached owner token lists. -/
def applyTokenLists (ownerTokens : List (Nat × List Nat))
    (cache : List (Nat × List Nat)) : List (Nat × List Nat) :=
  cache.foldl (fun ot p => alSet ot p.1 p.2) ownerTokens

/-- `batch_transfer(e, params_list, mode)`. -/
def batch_transfer (s : Storage) (params_list : List TransferParams)
    (mode : BatchMode) : BatchResultVoid × Storage :=
  if s.guard then
    (.fail [⟨0, ContractError.ReentrancyDetected.code, "reentrancy_detected"⟩], s)
  else
    let s1 : Storage := { s with guard := true }
    if ¬ enforce_batch_limits params_list.length then
      (.fail [⟨0, BATCH_SIZE_ERROR_CODE, "batch_size_validation"⟩],
        { s1 with guard := false })
    else
      match batchGo s1.ownerTokens mode params_list 0 s1.nfts [] [] [] 0 with
      | .aborted errors nfts' =>
        (.fail errors, { s1 with nfts := nfts', guard := false })
      | .finished nfts' deltas cache errors succeeded =>
        let balances' := applyDeltas s1.balances deltas
        let ownerTokens' := applyTokenLists s1.ownerTokens cache
        (.done succeeded errors,
          { s1 with nfts := nfts', balances := balances'
                    ownerTokens := ownerTokens', guard := false })

/-- Sequential application of a list of transfers, one `transfer` call at a
time, keeping only the state (the reference semantics for batch equivalence). -/
def seqTransfers (s : Storage) (ps : List TransferParams) : Storage :=
  ps.foldl (fun st p => (transfer st p.frm p.toAddr p.token_id).2) s

/-- Every transfer of the list, applied sequentially one at a time, returns
`Ok`. -/
inductive SeqOk : Storage → List TransferParams → Prop
  | nil (s : Storage) : SeqOk s []
  | cons (s : Storage) (p : TransferParams) (ps : List TransferParams) :
      (transfer s p.frm p.toAddr p.token_id).1 = .ok () →
      SeqOk (transfer s p.frm p.toAddr p.token_id).2 ps →
      SeqOk s (p :: ps)


/-- Sum of the `Int` values of a delta map. -/
def alIntSum (l : List (Nat × Int)) : Int :=
  (l.map Prod.snd).sum

/-- Number of entries of a batch whose sender is `a`. -/
def outCount (ps : List TransferParams) (a : Nat) : Nat :=
  (ps.filter (fun p => p.frm = a)).length

/-- Number of stored tokens whose current owner is `a`. -/
def ownedCount (s : Storage) (a : Nat) : Nat :=
  s.nfts.countP (fun kv => kv.2.owner = a)

/-- Post-state of a successful `transfer s frm toAddr tid` that found the
record `nft` (owner `frm`): owner rewritten, balances adjusted with the
floor-at-zero decrement, token id moved between the two owner lists. -/
def transferPost (s : Storage) (frm toAddr tid : Nat) (nft : NFT) : Storage :=
  let nfts' := alSet s.nfts tid { nft with owner := toAddr }
  let from_balance := alGetD s.balances frm 0
  let to_balance := alGetD s.balances toAddr 0
  let bal1 := if from_balance > 0 then alSet s.balances frm (from_balance - 1) else s.balances
  let bal2 := alSet bal1 toAddr (to_balance + 1)
  let from_tokens := alGetD s.ownerTokens frm []
  let ot1 := alSet s.ownerTokens frm (from_tokens.erase tid)
  let to_tokens := alGetD ot1 toAddr []
  let ot2 := alSet ot1 toAddr (to_tokens ++ [tid])
  { s with nfts := nfts', balances := bal2, ownerTokens := ot2, guard := false }

/-- Post-state of a successful `mint` call. -/
def mintPost (s : Storage) (now : Nat) (owner : Nat) (commitment_id : String)
    (duration_days max_loss_percent : Nat) (commitment_type : String)
    (initial_amount : Int) (asset_address : Nat) (early_exit_penalty : Nat) : Storage :=
  let token_id := s.tokenCounter
  let metadata : CommitmentMetadata :=
    { commitment_id, duration_days, max_loss_percent, commitment_type
      created_at := now, expires_at := now + duration_days * 86400
      initial_amount, asset_address }
  let nft : NFT := { owner, token_id, metadata, is_active := true, early_exit_penalty }
  { s with tokenCounter := token_id + 1
           nfts := alSet s.nfts token_id nft
           balances := alSet s.balances owner (alGetD s.balances owner 0 + 1)
           ownerTokens := alSet s.ownerTokens owner (alGetD s.ownerTokens owner [] ++ [token_id])
           tokenIds := s.tokenIds ++ [token_id]
           guard := false }

/-- Post-state of a successful `settle` of the record `nft` at `tid`. -/
def settlePost (s : Storage) (tid : Nat) (nft : NFT) : Storage :=
  { s with nfts := alSet s.nfts tid { nft with is_active := false }, guard := false }

/-- The record stored by a successful `mint` call. -/
def mintedNFT (s : Storage) (now owner : Nat) (commitment_id : String)
    (duration_days max_loss_percent : Nat) (commitment_type : String)
    (initial_amount : Int) (asset_address : Nat) (early_exit_penalty : Nat) : NFT :=
  { owner, token_id := s.tokenCounter
    metadata := { commitment_id, duration_days, max_loss_percent, commitment_type
                  created_at := now, expires_at := now + duration_days * 86400
                  initial_amount, asset_address }
    is_active := true, early_exit_penalty }

/-- Inductive strengthening of the ledger-wide invariant: the stored balance
counters sum to the token counter and dominate the per-owner token counts,
token records exist precisely for the ids below the counter with no
duplicate ids, and the guard is free. -/
def GoodState (s : Storage) : Prop :=
  alValsSum s.balances = s.tokenCounter ∧
  (∀ a, ownedCount s a ≤ s.balanceOf a) ∧
  (∀ k ∈ alKeys s.nfts, k < s.tokenCounter) ∧
  (∀ k, k < s.tokenCounter → k ∈ alKeys s.nfts) ∧
  (alKeys s.nfts).Nodup ∧
  s.guard = false

/-- States reachable from a freshly initialized registry by mint, settle,
single transfers that are not self-transfers, and Atomic batch transfers of
pairwise distinct tokens, none a self-transfer, whose entries are all valid
in the pre-state. -/
inductive ReachableNoSelf : Storage → Prop
  | init (admin : Nat) : ReachableNoSelf (init_contract emptyStorage admin).2
  | mint (s : Storage) (now owner : Nat) (cid : String) (d ml : Nat) (ct : String)
      (amt : Int) (asset pen : Nat) : ReachableNoSelf s →
      ReachableNoSelf (mint s now owner cid d ml ct amt asset pen).2
  | transfer (s : Storage) (frm toAddr tid : Nat) : ReachableNoSelf s →
      frm ≠ toAddr → ReachableNoSelf (transfer s frm toAddr tid).2
  | settle (s : Storage) (now tid : Nat) : ReachableNoSelf s →
      ReachableNoSelf (settle s now tid).2
  | batch (s : Storage) (ps : List TransferParams) : ReachableNoSelf s →
      ps.length ≤ MAX_BATCH_SIZE →
      (∀ p ∈ ps, ∃ nft, alGet? s.nfts p.token_id = some nft ∧ nft.owner = p.frm) →
      (ps.map TransferParams.token_id).Nodup →
      (∀ p ∈ ps, p.frm ≠ p.toAddr) →
      ReachableNoSelf (batch_transfer s ps BatchMode.Atomic).2

theorem alGet?_alSet_self {β : Type} (l : List (Nat × β)) (k : Nat) (v : β) :
    alGet? (alSet l k v) k = some v := by
  induction l with
  | nil => simp [alSet, alGet?]
  | cons h t ih =>
    by_cases hk : h.1 = k
    · simp [alSet, alGet?, hk]
    · simp [alSet, alGet?, hk, ih]

theorem alGet?_alSet_ne {β : Type} (l : List (Nat × β)) (k k' : Nat) (v : β)
    (h : k' ≠ k) : alGet? (alSet l k v) k' = alGet? l k' := by
  have hkk : ¬ k = k' := Ne.symm h
  induction l with
  | nil => simp [alSet, alGet?, hkk]
  | cons hd t ih =>
    by_cases hk : hd.1 = k
    · subst hk
      simp [alSet, alGet?, hkk]
    · simp [alSet, alGet?, hk, ih]

theorem alGetD_alSet_self {β : Type} (l : List (Nat × β)) (k : Nat) (v d : β) :
    alGetD (alSet l k v) k d = v := by
  simp [alGetD, alGet?_alSet_self]

theorem alGetD_alSet_ne {β : Type} (l : List (Nat × β)) (k k' : Nat) (v d : β)
    (h : k' ≠ k) : alGetD (alSet l k v) k' d = alGetD l k' d := by
  simp [alGetD, alGet?_alSet_ne _ _ _ _ h]

theorem alGet?_eq_none {β : Type} (l : List (Nat × β)) (k : Nat)
    (h : k ∉ alKeys l) : alGet? l k = none := by
  induction l with
  | nil => simp [alGet?]
  | cons hd t ih =>
    simp only [alKeys, List.map_cons, List.mem_cons] at h
    push_neg at h
    have h1 : ¬ hd.1 = k := fun hh => h.1 hh.symm
    simp [alGet?, h1, ih (by simpa [alKeys] using h.2)]

theorem alGet?_isSome_of_mem {β : Type} (l : List (Nat × β)) (k : Nat)
    (h : k ∈ alKeys l) : (alGet? l k).isSome := by
  induction l with
  | nil => simp [alKeys] at h
  | cons hd t ih =>
    by_cases hk : hd.1 = k
    · simp [alGet?, hk]
    · simp only [alKeys, List.map_cons, List.mem_cons] at h
      rcases h with h | h
      · exact absurd h.symm hk
      · simp [alGet?, hk, ih (by simpa [alKeys] using h)]

theorem mem_of_alGet?_eq_some {β : Type} {l : List (Nat × β)} {k : Nat} {v : β}
    (h : alGet? l k = some v) : (k, v) ∈ l := by
  induction l with
  | nil => simp [alGet?] at h
  | cons hd t ih =>
    by_cases hk : hd.1 = k
    · simp only [alGet?, hk, if_pos] at h
      have : hd = (k, v) := by
        cases hd
        simp only [Option.some.injEq] at h
        simp_all
      rw [this] at *
      exact List.mem_cons_self _ _
    · simp only [alGet?, hk, if_neg, not_false_iff] at h
      exact List.mem_cons_of_mem _ (ih h)

theorem alGet?_eq_some_of_mem_nodup {β : Type} {l : List (Nat × β)} {k : Nat} {v : β}
    (hnd : (alKeys l).Nodup) (h : (k, v) ∈ l) : alGet? l k = some v := by
  induction l with
  | nil => simp at h
  | cons hd t ih =>
    simp only [alKeys, List.map_cons, List.nodup_cons] at hnd
    rcases List.mem_cons.mp h with h | h
    · subst h
      simp [alGet?]
    · have hk : hd.1 ≠ k := by
        intro hk
        exact hnd.1 (hk ▸ (List.mem_map.mpr ⟨(k, v), h, rfl⟩))
      simp [alGet?, hk, ih (by simpa [alKeys] using hnd.2) h]

theorem mem_alKeys_alSet {β : Type} (l : List (Nat × β)) (k x : Nat) (v : β) :
    x ∈ alKeys (alSet l k v) ↔ x = k ∨ x ∈ alKeys l := by
  induction l with
  | nil => simp [alSet, alKeys, eq_comm]
  | cons hd t ih =>
    by_cases hk : hd.1 = k
    · subst hk
      simp [alSet, alKeys, eq_comm]
    · simp only [alSet, hk, if_neg, not_false_iff, alKeys, List.map_cons,
        List.mem_cons] at *
      constructor
      · rintro (h | h)
        · exact Or.inr (Or.inl h)
        · rcases ih.mp h with h | h
          · exact Or.inl h
          · exact Or.inr (Or.inr h)
      · rintro (h | h | h)
        · exact Or.inr (ih.mpr (Or.inl h))
        · exact Or.inl h
        · exact Or.inr (ih.mpr (Or.inr h))

theorem alKeys_alSet_of_mem {β : Type} (l : List (Nat × β)) (k : Nat) (v : β)
    (h : k ∈ alKeys l) : alKeys (alSet l k v) = alKeys l := by
  induction l with
  | nil => simp [alKeys] at h
  | cons hd t ih =>
    by_cases hk : hd.1 = k
    · simp [alSet, alKeys, hk]
    · simp only [alKeys, List.map_cons, List.mem_cons] at h
      rcases h with h | h
      · exact absurd h.symm hk
      · have := ih (by simpa [alKeys] using h)
        simp only [alKeys] at this
        simp [alSet, alKeys, hk, this]

theorem alKeys_alSet_nodup {β : Type} (l : List (Nat × β)) (k : Nat) (v : β)
    (h : (alKeys l).Nodup) : (alKeys (alSet l k v)).Nodup := by
  induction l with
  | nil => simp [alSet, alKeys]
  | cons hd t ih =>
    simp only [alKeys, List.map_cons, List.nodup_cons] at h
    by_cases hk : hd.1 = k
    · subst hk
      simpa [alSet, alKeys] using h
    · have ht := ih h.2
      simp only [alSet, hk, if_neg, not_false_iff, alKeys, List.map_cons,
        List.nodup_cons]
      refine ⟨fun hc => ?_, ht⟩
      rcases (mem_alKeys_alSet t k hd.1 v).mp (by simpa [alKeys] using hc) with hc | hc
      · exact hk hc
      · exact h.1 (by simpa [alKeys] using hc)

theorem alSet_eq_append {β : Type} (l : List (Nat × β)) (k : Nat) (v : β)
    (h : k ∉ alKeys l) : alSet l k v = l ++ [(k, v)] := by
  induction l with
  | nil => simp [alSet]
  | cons hd t ih =>
    simp only [alKeys, List.map_cons, List.mem_cons] at h
    push_neg at h
    have h1 : ¬ hd.1 = k := fun hh => h.1 hh.symm
    simp [alSet, h1, ih (by simpa [alKeys] using h.2)]

theorem alValsSum_alSet (l : List (Nat × Nat)) (k : Nat) (v : Nat) :
    alValsSum (alSet l k v) + alGetD l k 0 = alValsSum l + v := by
  induction l with
  | nil => simp [alSet, alValsSum, alGetD, alGet?]
  | cons hd t ih =>
    by_cases hk : hd.1 = k
    · simp only [alSet, hk, if_pos, alValsSum, List.map_cons, List.sum_cons,
        alGetD, alGet?]
      simp [alValsSum, alGetD] at ih ⊢
      omega
    · simp only [alSet, hk, if_neg, not_false_iff, alValsSum, List.map_cons,
        List.sum_cons, alGetD, alGet?]
      simp only [alValsSum, alGetD] at ih
      omega

theorem alIntSum_alSet (l : List (Nat × Int)) (k : Nat) (v : Int) :
    alIntSum (alSet l k v) = alIntSum l + v - alGetD l k 0 := by
  induction l with
  | nil => simp [alSet, alIntSum, alGetD, alGet?]
  | cons hd t ih =>
    by_cases hk : hd.1 = k
    · simp only [alSet, hk, if_pos, alIntSum, List.map_cons, List.sum_cons,
        alGetD, alGet?]
      simp [alIntSum, alGetD] at ih ⊢
      ring
    · simp only [alSet, hk, if_neg, not_false_iff, alIntSum, List.map_cons,
        List.sum_cons, alGetD, alGet?]
      simp only [alIntSum, alGetD] at ih
      omega

theorem countP_alSet {β : Type} (l : List (Nat × β)) (k : Nat) (v old : β)
    (p : Nat × β → Bool) (h : alGet? l k = some old) :
    (alSet l k v).countP p + (if p (k, old) then 1 else 0) =
      l.countP p + (if p (k, v) then 1 else 0) := by
  induction l with
  | nil => simp [alGet?] at h
  | cons hd t ih =>
    by_cases hk : hd.1 = k
    · simp only [alGet?, hk, if_pos] at h
      have : hd = (k, old) := by cases hd; simp_all
      subst this
      simp only [alSet, if_pos rfl, List.countP_cons]
      by_cases hv : p (k, v) <;> by_cases ho : p (k, old) <;> simp [hv, ho]
    · simp only [alGet?, hk, if_neg, not_false_iff] at h
      have := ih h
      simp only [alSet, hk, if_neg, not_false_iff, List.countP_cons]
      by_cases hh : p hd <;> simp [hh] <;> omega


theorem transfer_guard_held (s : Storage) (frm toAddr tid : Nat)
    (hg : s.guard = true) :
    transfer s frm toAddr tid = (.error .ReentrancyDetected, s) := by
  simp [transfer, hg]

theorem transfer_not_found (s : Storage) (frm toAddr tid : Nat)
    (hg : s.guard = false) (h : alGet? s.nfts tid = none) :
    transfer s frm toAddr tid = (.error .TokenNotFound, s) := by
  obtain ⟨ad, tc, nf, bal, ot, tids, g⟩ := s
  subst hg
  simp_all [transfer]

theorem transfer_not_owner (s : Storage) (frm toAddr tid : Nat) (nft : NFT)
    (hg : s.guard = false) (h : alGet? s.nfts tid = some nft)
    (hno : nft.owner ≠ frm) :
    transfer s frm toAddr tid = (.error .NotOwner, s) := by
  obtain ⟨ad, tc, nf, bal, ot, tids, g⟩ := s
  subst hg
  simp_all [transfer]

theorem transfer_ok (s : Storage) (frm toAddr tid : Nat) (nft : NFT)
    (hg : s.guard = false) (h : alGet? s.nfts tid = some nft)
    (hown : nft.owner = frm) :
    transfer s frm toAddr tid = (.ok (), transferPost s frm toAddr tid nft) := by
  obtain ⟨ad, tc, nf, bal, ot, tids, g⟩ := s
  subst hg
  by_cases hfb : 0 < alGetD bal frm 0 <;> simp_all [transfer, transferPost]

theorem settle_guard_held (s : Storage) (now tid : Nat) (hg : s.guard = true) :
    settle s now tid = (.error .ReentrancyDetected, s) := by
  simp [settle, hg]

theorem settle_not_found (s : Storage) (now tid : Nat)
    (hg : s.guard = false) (h : alGet? s.nfts tid = none) :
    settle s now tid = (.error .TokenNotFound, s) := by
  obtain ⟨ad, tc, nf, bal, ot, tids, g⟩ := s
  subst hg
  simp_all [settle]

theorem settle_already (s : Storage) (now tid : Nat) (nft : NFT)
    (hg : s.guard = false) (h : alGet? s.nfts tid = some nft)
    (hia : nft.is_active = false) :
    settle s now tid = (.error .AlreadySettled, s) := by
  obtain ⟨ad, tc, nf, bal, ot, tids, g⟩ := s
  subst hg
  simp_all [settle]

theorem settle_not_expired (s : Storage) (now tid : Nat) (nft : NFT)
    (hg : s.guard = false) (h : alGet? s.nfts tid = some nft)
    (ha : nft.is_active = true) (hlt : now < nft.metadata.expires_at) :
    settle s now tid = (.error .NotExpired, s) := by
  obtain ⟨ad, tc, nf, bal, ot, tids, g⟩ := s
  subst hg
  simp_all [settle]

theorem settle_ok (s : Storage) (now tid : Nat) (nft : NFT)
    (hg : s.guard = false) (h : alGet? s.nfts tid = some nft)
    (ha : nft.is_active = true) (hexp : nft.metadata.expires_at ≤ now) :
    settle s now tid = (.ok (), settlePost s tid nft) := by
  obtain ⟨ad, tc, nf, bal, ot, tids, g⟩ := s
  subst hg
  simp_all [settle, settlePost, Nat.not_lt.mpr hexp]

theorem mint_guard_held (s : Storage) (now owner : Nat) (cid : String)
    (d ml : Nat) (ct : String) (amt : Int) (asset pen : Nat)
    (hg : s.guard = true) :
    mint s now owner cid d ml ct amt asset pen = (.error .ReentrancyDetected, s) := by
  simp [mint, hg]

theorem mint_ok (s : Storage) (now owner : Nat) (cid : String)
    (d ml : Nat) (ct : String) (amt : Int) (asset pen : Nat)
    (hg : s.guard = false) (hadm : s.admin.isSome)
    (hd : d ≠ 0) (hml : ml ≤ 100) (hct : is_valid_commitment_type ct)
    (hamt : 0 < amt) :
    mint s now owner cid d ml ct amt asset pen =
      (.ok s.tokenCounter, mintPost s now owner cid d ml ct amt asset pen) := by
  obtain ⟨ad, tc, nf, bal, ot, tids, g⟩ := s
  subst hg
  simp_all [mint, mintPost, Nat.not_lt.mpr hml, Int.not_le.mpr hamt,
    Option.isNone_iff_eq_none, Option.isSome_iff_exists]
  rintro rfl
  simp_all

theorem batch_guard_held (s : Storage) (ps : List TransferParams) (mode : BatchMode)
    (hg : s.guard = true) :
    batch_transfer s ps mode =
      (.fail [⟨0, ContractError.ReentrancyDetected.code, "reentrancy_detected"⟩], s) := by
  simp [batch_transfer, hg]

theorem mint_guard_after (s : Storage) (now owner : Nat) (cid : String)
    (d ml : Nat) (ct : String) (amt : Int) (asset pen : Nat)
    (hg : s.guard = false) :
    (mint s now owner cid d ml ct amt asset pen).2.guard = false := by
  obtain ⟨ad, tc, nf, bal, ot, tids, g⟩ := s
  subst hg
  simp only [mint]
  repeat' split
  all_goals rfl

theorem transfer_guard_after (s : Storage) (frm toAddr tid : Nat)
    (hg : s.guard = false) :
    (transfer s frm toAddr tid).2.guard = false := by
  obtain ⟨ad, tc, nf, bal, ot, tids, g⟩ := s
  subst hg
  simp only [transfer]
  repeat' split
  all_goals rfl

theorem settle_guard_after (s : Storage) (now tid : Nat)
    (hg : s.guard = false) :
    (settle s now tid).2.guard = false := by
  obtain ⟨ad, tc, nf, bal, ot, tids, g⟩ := s
  subst hg
  simp only [settle]
  repeat' split
  all_goals rfl

theorem batch_guard_after (s : Storage) (ps : List TransferParams) (mode : BatchMode)
    (hg : s.guard = false) :
    (batch_transfer s ps mode).2.guard = false := by
  obtain ⟨ad, tc, nf, bal, ot, tids, g⟩ := s
  subst hg
  simp only [batch_transfer]
  repeat' split
  all_goals rfl

/-- C4: a guarded operation (mint, transfer, settle, batch_transfer) entered
while the reentrancy flag is held fails immediately with
`ReentrancyDetected` and leaves the state entirely unchanged; a call entered
while the flag is free leaves the flag false on every return path, success
or error. -/
theorem claim_C4 (s : Storage) (now owner : Nat) (cid : String) (d ml : Nat)
    (ct : String) (amt : Int) (asset pen frm toAddr tid : Nat)
    (ps : List TransferParams) (mode : BatchMode) :
    (s.guard = true →
      mint s now owner cid d ml ct amt asset pen = (.error .ReentrancyDetected, s) ∧
      transfer s frm toAddr tid = (.error .ReentrancyDetected, s) ∧
      settle s now tid = (.error .ReentrancyDetected, s) ∧
      batch_transfer s ps mode =
        (.fail [⟨0, ContractError.ReentrancyDetected.code, "reentrancy_detected"⟩], s)) ∧
    (s.guard = false →
      (mint s now owner cid d ml ct amt asset pen).2.guard = false ∧
      (transfer s frm toAddr tid).2.guard = false ∧
      (settle s now tid).2.guard = false ∧
      (batch_transfer s ps mode).2.guard = false) := by
  constructor
  · intro hg
    exact ⟨mint_guard_held _ _ _ _ _ _ _ _ _ _ hg, transfer_guard_held _ _ _ _ hg,
      settle_guard_held _ _ _ hg, batch_guard_held _ _ _ hg⟩
  · intro hg
    exact ⟨mint_guard_after _ _ _ _ _ _ _ _ _ _ hg, transfer_guard_after _ _ _ _ hg,
      settle_guard_after _ _ _ hg, batch_guard_after _ _ _ hg⟩

/-- Witness for C4 at concrete inputs: a held guard rejects a mint with the
state unchanged, and a completed transfer on a free-guard state leaves the
guard false. -/
theorem claim_C4_witness :
    ({ emptyStorage with guard := true } : Storage).guard = true ∧
    mint { emptyStorage with guard := true } 0 1 "c" 30 10 "safe" 1000 7 5 =
      (.error .ReentrancyDetected, { emptyStorage with guard := true }) ∧
    (emptyStorage.guard = false ∧
      (transfer emptyStorage 1 2 0).2.guard = false) :=
  ⟨rfl,
    ((claim_C4 { emptyStorage with guard := true } 0 1 "c" 30 10 "safe" 1000 7 5
      1 2 0 [] BatchMode.Atomic).1 rfl).1,
    rfl,
    ((claim_C4 emptyStorage 0 1 "c" 30 10 "safe" 1000 7 5
      1 2 0 [] BatchMode.Atomic).2 rfl).2.1⟩

/-- C3: evaluation of the code at the failing input.  On a freshly
initialized registry the first mint returns token id 0 and the second
returns 1: ids are assigned from the counter before it is incremented, so
the sequence starts at 0, not at 1 as the spec and the contract's own tests
(`assert_eq!(token_id, 1)` after the first mint) require. -/
theorem claim_C3 :
    (mint (init_contract emptyStorage 9).2 0 1 "c" 30 10 "safe" 1000 7 5).1 =
      .ok 0 ∧
    (mint (mint (init_contract emptyStorage 9).2 0 1 "c" 30 10 "safe" 1000 7 5).2
        0 2 "c" 30 10 "safe" 1000 7 5).1 = .ok 1 :=
  ⟨rfl, rfl⟩

/-- C6: `settle` fails `TokenNotFound` on a missing token, `AlreadySettled`
on an inactive token, `NotExpired` while the ledger time is strictly before
`metadata.expires_at`; on success it marks the token inactive, and a second
settle of the same token afterwards always fails with `AlreadySettled`. -/
theorem claim_C6 (s : Storage) (now tid : Nat) (hg : s.guard = false) :
    (alGet? s.nfts tid = none → settle s now tid = (.error .TokenNotFound, s)) ∧
    (∀ nft, alGet? s.nfts tid = some nft → nft.is_active = false →
      settle s now tid = (.error .AlreadySettled, s)) ∧
    (∀ nft, alGet? s.nfts tid = some nft → nft.is_active = true →
      now < nft.metadata.expires_at → settle s now tid = (.error .NotExpired, s)) ∧
    (∀ nft, alGet? s.nfts tid = some nft → nft.is_active = true →
      nft.metadata.expires_at ≤ now →
      (settle s now tid).1 = .ok () ∧
      alGet? (settle s now tid).2.nfts tid = some { nft with is_active := false } ∧
      ∀ now2, (settle (settle s now tid).2 now2 tid).1 = .error .AlreadySettled) := by
  refine ⟨fun h => settle_not_found s now tid hg h,
    fun nft h hia => settle_already s now tid nft hg h hia,
    fun nft h ha hlt => settle_not_expired s now tid nft hg h ha hlt,
    fun nft h ha hexp => ?_⟩
  rw [settle_ok s now tid nft hg h ha hexp]
  refine ⟨rfl, alGet?_alSet_self _ _ _, fun now2 => ?_⟩
  have h2 : alGet? (settlePost s tid nft).nfts tid = some { nft with is_active := false } :=
    alGet?_alSet_self _ _ _
  rw [settle_already (settlePost s tid nft) now2 tid { nft with is_active := false } rfl h2 rfl]

/-- Witness for C6 at a concrete input: a token minted with a 30-day
duration at time 0 settles successfully at time 2592000, and a second settle
fails `AlreadySettled`. -/
theorem claim_C6_witness :
    (settle (mint (init_contract emptyStorage 9).2 0 1 "c" 30 10 "safe" 1000 7 5).2
        2592000 0).1 = .ok () ∧
    (settle (settle (mint (init_contract emptyStorage 9).2 0 1 "c" 30 10 "safe" 1000 7 5).2
        2592000 0).2 9999999 0).1 = .error .AlreadySettled := by
  have h := (claim_C6
    (mint (init_contract emptyStorage 9).2 0 1 "c" 30 10 "safe" 1000 7 5).2 2592000 0
    rfl).2.2.2
    { owner := 1, token_id := 0
      metadata := { commitment_id := "c", duration_days := 30, max_loss_percent := 10
                    commitment_type := "safe", created_at := 0, expires_at := 2592000
                    initial_amount := 1000, asset_address := 7 }
      is_active := true, early_exit_penalty := 5 }
    rfl rfl (by decide)
  exact ⟨h.1, h.2.2 9999999⟩

/-- C7: an authorized mint with positive duration, `max_loss_percent ≤ 100`,
a valid commitment type and positive amount on an initialized registry with
a free guard succeeds, stores an active record, and sets `created_at` to the
call-time ledger timestamp and `expires_at = created_at + duration_days *
86400`. -/
theorem claim_C7 (s : Storage) (now owner : Nat) (cid : String) (d ml : Nat)
    (ct : String) (amt : Int) (asset pen : Nat)
    (hg : s.guard = false) (hadm : s.admin.isSome = true) (hd : 0 < d)
    (hml : ml ≤ 100) (hct : is_valid_commitment_type ct = true) (hamt : 0 < amt) :
    (mint s now owner cid d ml ct amt asset pen).1 = .ok s.tokenCounter ∧
    ∃ nft, alGet? (mint s now owner cid d ml ct amt asset pen).2.nfts s.tokenCounter =
        some nft ∧
      nft.is_active = true ∧ nft.metadata.created_at = now ∧
      nft.metadata.expires_at = now + d * 86400 := by
  rw [mint_ok s now owner cid d ml ct amt asset pen hg hadm (Nat.pos_iff_ne_zero.mp hd)
    hml hct hamt]
  exact ⟨rfl, _, alGet?_alSet_self _ _ _, rfl, rfl, rfl⟩

/-- Witness for C7 at a concrete input: minting on a fresh registry at time
1000 with a 2-day duration yields an active token expiring at
1000 + 172800. -/
theorem claim_C7_witness :
    (mint (init_contract emptyStorage 9).2 1000 1 "c" 2 50 "balanced" 77 7 5).1 =
      .ok ((init_contract emptyStorage 9).2.tokenCounter) ∧
    (alGet? (mint (init_contract emptyStorage 9).2 1000 1 "c" 2 50 "balanced" 77 7 5).2.nfts
      ((init_contract emptyStorage 9).2.tokenCounter)).map NFT.is_active = some true ∧
    (alGet? (mint (init_contract emptyStorage 9).2 1000 1 "c" 2 50 "balanced" 77 7 5).2.nfts
      ((init_contract emptyStorage 9).2.tokenCounter)).map
      (fun n => n.metadata.expires_at) = some (1000 + 2 * 86400) := by
  obtain ⟨h1, nft, h2, h3, _, h5⟩ :=
    claim_C7 (init_contract emptyStorage 9).2 1000 1 "c" 2 50 "balanced" 77 7 5
      rfl rfl (by decide) (by decide) (by decide) (by decide)
  refine ⟨h1, ?_, ?_⟩
  · rw [h2]
    simp [h3]
  · rw [h2]
    simp [h5]

/-- C8: transfers ignore the active/settled status: a transfer of an
existing token owned by `frm` succeeds and rewrites the owner even when the
record is inactive, and no call of `transfer` ever returns
`TransferNotAllowed`. -/
theorem claim_C8 :
    (∀ (s : Storage) (frm toAddr tid : Nat) (nft : NFT), s.guard = false →
      alGet? s.nfts tid = some nft → nft.owner = frm → nft.is_active = false →
      (transfer s frm toAddr tid).1 = .ok () ∧
      alGet? (transfer s frm toAddr tid).2.nfts tid = some { nft with owner := toAddr }) ∧
    (∀ (s : Storage) (frm toAddr tid : Nat),
      (transfer s frm toAddr tid).1 ≠ .error .TransferNotAllowed) := by
  constructor
  · intro s frm toAddr tid nft hg h hown _hia
    rw [transfer_ok s frm toAddr tid nft hg h hown]
    exact ⟨rfl, alGet?_alSet_self _ _ _⟩
  · intro s frm toAddr tid
    by_cases hg : s.guard = true
    · rw [transfer_guard_held s frm toAddr tid hg]
      simp
    · have hg2 : s.guard = false := by simpa using hg
      rcases halg : alGet? s.nfts tid with _ | nft
      · rw [transfer_not_found s frm toAddr tid hg2 halg]
        simp
      · by_cases hown : nft.owner = frm
        · rw [transfer_ok s frm toAddr tid nft hg2 halg hown]
          simp
        · rw [transfer_not_owner s frm toAddr tid nft hg2 halg hown]
          simp

/-- Witness for C8 at a concrete input: after minting and settling token 0,
its owner can still transfer it and the owner field is updated. -/
theorem claim_C8_witness :
    (transfer (settle (mint (init_contract emptyStorage 9).2 0 1 "c" 30 10 "safe" 1000 7 5).2
        2592000 0).2 1 2 0).1 = .ok () ∧
    alGet? (transfer (settle (mint (init_contract emptyStorage 9).2 0 1 "c" 30 10 "safe" 1000 7 5).2
        2592000 0).2 1 2 0).2.nfts 0 =
      some { owner := 2, token_id := 0
             metadata := { commitment_id := "c", duration_days := 30, max_loss_percent := 10
                           commitment_type := "safe", created_at := 0, expires_at := 2592000
                           initial_amount := 1000, asset_address := 7 }
             is_active := false, early_exit_penalty := 5 } :=
  claim_C8.1 _ 1 2 0
    { owner := 1, token_id := 0
      metadata := { commitment_id := "c", duration_days := 30, max_loss_percent := 10
                    commitment_type := "safe", created_at := 0, expires_at := 2592000
                    initial_amount := 1000, asset_address := 7 }
      is_active := false, early_exit_penalty := 5 }
    rfl rfl rfl rfl

/-- C9: a self-transfer of an owned token succeeds, keeps the owner, keeps
the token exactly once in the owner's token list, but increments the
owner's balance counter from `b` to `b + 1`. -/
theorem claim_C9 (s : Storage) (a tid : Nat) (nft : NFT) (b : Nat)
    (hg : s.guard = false) (h : alGet? s.nfts tid = some nft) (hown : nft.owner = a)
    (hb : s.balanceOf a = b) (_hb1 : 1 ≤ b) (hcount : (s.tokensOf a).count tid = 1) :
    (transfer s a a tid).1 = .ok () ∧
    alGet? (transfer s a a tid).2.nfts tid = some { nft with owner := a } ∧
    ((transfer s a a tid).2.tokensOf a).count tid = 1 ∧
    (transfer s a a tid).2.balanceOf a = b + 1 := by
  rw [transfer_ok s a a tid nft hg h hown]
  refine ⟨rfl, alGet?_alSet_self _ _ _, ?_, ?_⟩
  · simp only [transferPost, Storage.tokensOf, Storage.balanceOf, alGetD_alSet_self]
    rw [List.count_append]
    have := List.count_erase_self tid (alGetD s.ownerTokens a [])
    simp only [Storage.tokensOf] at hcount
    simp [this, hcount]
  · simp only [transferPost, Storage.tokensOf, Storage.balanceOf, alGetD_alSet_self]
    simp only [Storage.balanceOf] at hb
    rw [hb]

/-- Witness for C9 at a concrete input: a self-transfer of token 0 by owner
1 (balance 1) leaves owner and token list intact but bumps the balance
counter to 2. -/
theorem claim_C9_witness :
    (transfer (mint (init_contract emptyStorage 9).2 0 1 "c" 30 10 "safe" 1000 7 5).2
        1 1 0).1 = .ok () ∧
    alGet? (transfer (mint (init_contract emptyStorage 9).2 0 1 "c" 30 10 "safe" 1000 7 5).2
        1 1 0).2.nfts 0 =
      some { owner := 1, token_id := 0
             metadata := { commitment_id := "c", duration_days := 30, max_loss_percent := 10
                           commitment_type := "safe", created_at := 0, expires_at := 2592000
                           initial_amount := 1000, asset_address := 7 }
             is_active := true, early_exit_penalty := 5 } ∧
    ((transfer (mint (init_contract emptyStorage 9).2 0 1 "c" 30 10 "safe" 1000 7 5).2
        1 1 0).2.tokensOf 1).count 0 = 1 ∧
    (transfer (mint (init_contract emptyStorage 9).2 0 1 "c" 30 10 "safe" 1000 7 5).2
        1 1 0).2.balanceOf 1 = 1 + 1 :=
  claim_C9 (mint (init_contract emptyStorage 9).2 0 1 "c" 30 10 "safe" 1000 7 5).2
    1 0
    { owner := 1, token_id := 0
      metadata := { commitment_id := "c", duration_days := 30, max_loss_percent := 10
                    commitment_type := "safe", created_at := 0, expires_at := 2592000
                    initial_amount := 1000, asset_address := 7 }
      is_active := true, early_exit_penalty := 5 }
    1 rfl rfl rfl rfl (by decide) (by decide)

/-- C10: a successful settle only rewrites the settled token's record to the
same record with `is_active := false`; every other token record, all balance
counters, all owner token lists, the global token-id list, the counter and
the admin are unchanged, and the guard is free again. -/
theorem claim_C10 (s : Storage) (now tid : Nat) (nft : NFT)
    (hg : s.guard = false) (h : alGet? s.nfts tid = some nft)
    (hok : (settle s now tid).1 = .ok ()) :
    alGet? (settle s now tid).2.nfts tid = some { nft with is_active := false } ∧
    (∀ t2, t2 ≠ tid → alGet? (settle s now tid).2.nfts t2 = alGet? s.nfts t2) ∧
    (settle s now tid).2.balances = s.balances ∧
    (settle s now tid).2.ownerTokens = s.ownerTokens ∧
    (settle s now tid).2.tokenIds = s.tokenIds ∧
    (settle s now tid).2.tokenCounter = s.tokenCounter ∧
    (settle s now tid).2.admin = s.admin ∧
    (settle s now tid).2.guard = false := by
  rcases ha : nft.is_active with _ | _
  · rw [settle_already s now tid nft hg h ha] at hok
    simp at hok
  · by_cases hlt : now < nft.metadata.expires_at
    · rw [settle_not_expired s now tid nft hg h ha hlt] at hok
      simp at hok
    · rw [settle_ok s now tid nft hg h ha (Nat.not_lt.mp hlt)]
      exact ⟨alGet?_alSet_self _ _ _,
        fun t2 ht2 => alGet?_alSet_ne _ _ _ _ ht2, rfl, rfl, rfl, rfl, rfl, rfl⟩

/-- Witness for C10 at a concrete input: settling token 0 of the minted
example state keeps balances, token lists and counters intact. -/
theorem claim_C10_witness :
    alGet? (settle (mint (init_contract emptyStorage 9).2 0 1 "c" 30 10 "safe" 1000 7 5).2
        2592000 0).2.nfts 0 =
      some { owner := 1, token_id := 0
             metadata := { commitment_id := "c", duration_days := 30, max_loss_percent := 10
                           commitment_type := "safe", created_at := 0, expires_at := 2592000
                           initial_amount := 1000, asset_address := 7 }
             is_active := false, early_exit_penalty := 5 } ∧
    (settle (mint (init_contract emptyStorage 9).2 0 1 "c" 30 10 "safe" 1000 7 5).2
        2592000 0).2.balances =
      (mint (init_contract emptyStorage 9).2 0 1 "c" 30 10 "safe" 1000 7 5).2.balances := by
  have h := claim_C10 (mint (init_contract emptyStorage 9).2 0 1 "c" 30 10 "safe" 1000 7 5).2
    2592000 0
    { owner := 1, token_id := 0
      metadata := { commitment_id := "c", duration_days := 30, max_loss_percent := 10
                    commitment_type := "safe", created_at := 0, expires_at := 2592000
                    initial_amount := 1000, asset_address := 7 }
      is_active := true, early_exit_penalty := 5 }
    rfl rfl rfl
  exact ⟨h.1, h.2.2.1⟩

theorem transferPost_nfts (s : Storage) (f t tid : Nat) (nft : NFT) :
    (transferPost s f t tid nft).nfts = alSet s.nfts tid { nft with owner := t } := rfl

theorem transferPost_guard (s : Storage) (f t tid : Nat) (nft : NFT) :
    (transferPost s f t tid nft).guard = false := rfl

theorem transferPost_tokenCounter (s : Storage) (f t tid : Nat) (nft : NFT) :
    (transferPost s f t tid nft).tokenCounter = s.tokenCounter := rfl

theorem transferPost_admin (s : Storage) (f t tid : Nat) (nft : NFT) :
    (transferPost s f t tid nft).admin = s.admin := rfl

theorem transferPost_tokenIds (s : Storage) (f t tid : Nat) (nft : NFT) :
    (transferPost s f t tid nft).tokenIds = s.tokenIds := rfl

theorem transferPost_balanceOf_frm (s : Storage) (f t tid : Nat) (nft : NFT)
    (hft : f ≠ t) (hpos : 0 < s.balanceOf f) :
    (transferPost s f t tid nft).balanceOf f = s.balanceOf f - 1 := by
  simp only [transferPost, Storage.balanceOf] at hpos ⊢
  rw [alGetD_alSet_ne _ _ _ _ _ hft, if_pos hpos, alGetD_alSet_self]

theorem transferPost_balanceOf_toAddr (s : Storage) (f t tid : Nat) (nft : NFT) :
    (transferPost s f t tid nft).balanceOf t = s.balanceOf t + 1 := by
  simp only [transferPost, Storage.balanceOf]
  rw [alGetD_alSet_self]

theorem transferPost_balanceOf_other (s : Storage) (f t tid a : Nat) (nft : NFT)
    (haf : a ≠ f) (hat : a ≠ t) :
    (transferPost s f t tid nft).balanceOf a = s.balanceOf a := by
  simp only [transferPost, Storage.balanceOf]
  rw [alGetD_alSet_ne _ _ _ _ _ hat]
  split
  · rw [alGetD_alSet_ne _ _ _ _ _ haf]
  · rfl

theorem transferPost_tokensOf_frm (s : Storage) (f t tid : Nat) (nft : NFT)
    (hft : f ≠ t) :
    (transferPost s f t tid nft).tokensOf f = (s.tokensOf f).erase tid := by
  simp only [transferPost, Storage.tokensOf]
  rw [alGetD_alSet_ne _ _ _ _ _ hft, alGetD_alSet_self]

theorem transferPost_tokensOf_toAddr (s : Storage) (f t tid : Nat) (nft : NFT)
    (hft : f ≠ t) :
    (transferPost s f t tid nft).tokensOf t = s.tokensOf t ++ [tid] := by
  simp only [transferPost, Storage.tokensOf]
  rw [alGetD_alSet_self, alGetD_alSet_ne _ _ _ _ _ (Ne.symm hft)]

theorem transferPost_tokensOf_other (s : Storage) (f t tid a : Nat) (nft : NFT)
    (haf : a ≠ f) (hat : a ≠ t) :
    (transferPost s f t tid nft).tokensOf a = s.tokensOf a := by
  simp only [transferPost, Storage.tokensOf]
  rw [alGetD_alSet_ne _ _ _ _ _ hat, alGetD_alSet_ne _ _ _ _ _ haf]

theorem seqTransfers_nil (s : Storage) : seqTransfers s [] = s := rfl

theorem seqTransfers_cons (s : Storage) (p : TransferParams) (ps : List TransferParams) :
    seqTransfers s (p :: ps) =
      seqTransfers (transfer s p.frm p.toAddr p.token_id).2 ps := rfl

theorem outCount_cons (p : TransferParams) (ps : List TransferParams) (a : Nat) :
    outCount (p :: ps) a = outCount ps a + (if p.frm = a then 1 else 0) := by
  simp only [outCount, List.filter]
  split <;> rename_i h
  · simp_all
  · simp_all

theorem mem_alKeys_cons {β : Type} (hd : Nat × β) (t : List (Nat × β)) (a : Nat) :
    a ∈ alKeys (hd :: t) ↔ a = hd.1 ∨ a ∈ alKeys t := by
  simp [alKeys, eq_comm]

theorem not_mem_alKeys_nil {β : Type} (a : Nat) : a ∉ alKeys ([] : List (Nat × β)) := by
  simp [alKeys]

theorem applyDeltas_go (deltas : List (Nat × Int)) :
    ∀ (acc bal0 : List (Nat × Nat)) (target : Nat → Nat),
    (alKeys deltas).Nodup →
    (∀ a ∈ alKeys deltas, alGetD acc a 0 = alGetD bal0 a 0) →
    (∀ a, a ∉ alKeys deltas → alGetD acc a 0 = target a) →
    (∀ a ∈ alKeys deltas,
      ((alGetD bal0 a 0 : Nat) : Int) + alGetD deltas a 0 = (target a : Int)) →
    (∀ a, alGetD (applyDeltas acc deltas) a 0 = target a) ∧
    ((alValsSum (applyDeltas acc deltas) : Int) = alValsSum acc + alIntSum deltas) := by
  induction deltas with
  | nil =>
    intro acc bal0 target _ _ hacc2 _
    refine ⟨fun a => hacc2 a (not_mem_alKeys_nil a), by simp [applyDeltas, alIntSum]⟩
  | cons hd rest ih =>
    intro acc bal0 target hnd hacc1 hacc2 hK
    obtain ⟨k, δ⟩ := hd
    simp only [alKeys, List.map_cons, List.nodup_cons] at hnd
    have hnd2 : (alKeys rest).Nodup := hnd.2
    have hknr : k ∉ alKeys rest := hnd.1
    have hkmem : k ∈ alKeys ((k, δ) :: rest) := (mem_alKeys_cons _ _ _).mpr (Or.inl rfl)
    have hgetk : alGetD ((k, δ) :: rest) k 0 = δ := by simp [alGetD, alGet?]
    have hbalk : ((alGetD bal0 k 0 : Nat) : Int) + δ = (target k : Int) := by
      have := hK k hkmem
      rwa [hgetk] at this
    have hvk : (max (((alGetD acc k 0 : Nat) : Int) + δ) 0).toNat = target k := by
      rw [hacc1 k hkmem, hbalk]
      rw [max_eq_left (by positivity)]
      exact Int.toNat_natCast _
    have hrest : ∀ a ∈ alKeys rest, alGet? ((k, δ) :: rest) a = alGet? rest a := by
      intro a ha
      have : ¬ k = a := fun h => hknr (h ▸ ha)
      simp [alGet?, this]
    have happ : applyDeltas acc ((k, δ) :: rest) =
        applyDeltas (alSet acc k (target k)) rest := by
      simp only [applyDeltas, List.foldl_cons]
      rw [hvk]
    have hmain := ih (alSet acc k (target k)) bal0 target hnd2
      (fun a ha => by
        have hak : a ≠ k := fun h => hknr (h ▸ ha)
        rw [alGetD_alSet_ne _ _ _ _ _ hak]
        exact hacc1 a ((mem_alKeys_cons _ _ _).mpr (Or.inr ha)))
      (fun a ha => by
        by_cases hak : a = k
        · subst hak
          rw [alGetD_alSet_self]
        · rw [alGetD_alSet_ne _ _ _ _ _ hak]
          exact hacc2 a (fun hmem => by
            rcases (mem_alKeys_cons _ _ _).mp hmem with h | h
            · exact hak h
            · exact ha h))
      (fun a ha => by
        rw [show alGetD rest a 0 = alGetD ((k, δ) :: rest) a 0 from by
          simp [alGetD, hrest a ha]]
        exact hK a ((mem_alKeys_cons _ _ _).mpr (Or.inr ha)))
    rw [happ]
    refine ⟨hmain.1, ?_⟩
    rw [hmain.2]
    have hsum := alValsSum_alSet acc k (target k)
    have hgetDk := hacc1 k hkmem
    simp only [alIntSum, List.map_cons, List.sum_cons]
    have hcast : (alValsSum (alSet acc k (target k)) : Int) =
        (alValsSum acc : Int) + (target k : Int) - ((alGetD acc k 0 : Nat) : Int) := by
      omega
    rw [hcast, hgetDk]
    have : alIntSum rest = (rest.map Prod.snd).sum := rfl
    omega

theorem applyTokenLists_go (cache : List (Nat × List Nat)) :
    ∀ (acc : List (Nat × List Nat)) (targetT : Nat → List Nat),
    (alKeys cache).Nodup →
    (∀ p ∈ cache, p.2 = targetT p.1) →
    (∀ a, a ∉ alKeys cache → alGetD acc a [] = targetT a) →
    ∀ a, alGetD (applyTokenLists acc cache) a [] = targetT a := by
  induction cache with
  | nil =>
    intro acc targetT _ _ hacc a
    exact hacc a (not_mem_alKeys_nil a)
  | cons hd rest ih =>
    intro acc targetT hnd hmem hacc a
    obtain ⟨k, v⟩ := hd
    simp only [alKeys, List.map_cons, List.nodup_cons] at hnd
    have hv : v = targetT k := hmem (k, v) (List.mem_cons_self _ _)
    have happ : applyTokenLists acc ((k, v) :: rest) =
        applyTokenLists (alSet acc k v) rest := by
      simp only [applyTokenLists, List.foldl_cons]
    rw [happ, hv]
    exact ih (alSet acc k (targetT k)) targetT hnd.2
      (fun p hp => hmem p (List.mem_cons_of_mem _ hp))
      (fun b hb => by
        by_cases hbk : b = k
        · subst hbk
          rw [alGetD_alSet_self]
        · rw [alGetD_alSet_ne _ _ _ _ _ hbk]
          exact hacc b (fun hmem2 => by
            rcases (mem_alKeys_cons _ _ _).mp hmem2 with h | h
            · exact hbk h
            · exact hb h))
      a

theorem batchGo_cons_ok (toks0 : List (Nat × List Nat)) (mode : BatchMode)
    (ps : List TransferParams) (i succ : Nat) (nfts : List (Nat × NFT))
    (deltas d1 d2 : List (Nat × Int)) (cache c1 c2 c3 c4 : List (Nat × List Nat))
    (errs : List BatchError) (p : TransferParams) (nft : NFT)
    (hget : alGet? nfts p.token_id = some nft) (hown : nft.owner = p.frm)
    (hd1 : d1 = alSet deltas p.frm (alGetD deltas p.frm 0 - 1))
    (hd2 : d2 = alSet d1 p.toAddr (alGetD d1 p.toAddr 0 + 1))
    (hc1 : c1 = cacheLoad toks0 cache p.frm)
    (hc2 : c2 = cacheLoad toks0 c1 p.toAddr)
    (hc3 : c3 = alSet c2 p.frm ((alGetD c2 p.frm []).erase p.token_id))
    (hc4 : c4 = alSet c3 p.toAddr (alGetD c3 p.toAddr [] ++ [p.token_id])) :
    batchGo toks0 mode (p :: ps) i nfts deltas cache errs succ =
      batchGo toks0 mode ps (i + 1)
        (alSet nfts p.token_id { nft with owner := p.toAddr }) d2 c4 errs (succ + 1) := by
  subst hc4 hc3 hc2 hc1 hd2 hd1
  simp only [batchGo, hget]
  simp [hown]

theorem alGetD_eq_getD_of_isSome {β : Type} (l : List (Nat × β)) (k : Nat)
    (d1 d2 : β) (h : (alGet? l k).isSome) :
    alGetD l k d1 = (alGet? l k).getD d2 := by
  rcases halg : alGet? l k with _ | v
  · rw [halg] at h
    simp at h
  · simp [alGetD, halg]

theorem cacheLoad_unified (toks0 cache : List (Nat × List Nat)) (x : Nat)
    (T : Nat → List Nat)
    (h : ∀ a, (alGet? cache a).getD (alGetD toks0 a []) = T a) :
    ∀ a, (alGet? (cacheLoad toks0 cache x) a).getD (alGetD toks0 a []) = T a := by
  intro a
  unfold cacheLoad
  by_cases hmiss : (alGet? cache x).isNone
  · rw [if_pos hmiss]
    by_cases hax : a = x
    · subst hax
      rw [alGet?_alSet_self]
      have := h a
      rw [Option.isNone_iff_eq_none] at hmiss
      rw [hmiss] at this
      simpa using this
    · rw [alGet?_alSet_ne _ _ _ _ hax]
      exact h a
  · rw [if_neg hmiss]
    exact h a

theorem cacheLoad_isSome_self (toks0 cache : List (Nat × List Nat)) (x : Nat) :
    (alGet? (cacheLoad toks0 cache x) x).isSome := by
  unfold cacheLoad
  by_cases hmiss : (alGet? cache x).isNone
  · rw [if_pos hmiss, alGet?_alSet_self]
    rfl
  · rw [if_neg hmiss]
    rcases halg : alGet? cache x with _ | v
    · rw [Option.isNone_iff_eq_none] at hmiss
      exact absurd halg hmiss
    · rfl

theorem cacheLoad_isSome_mono (toks0 cache : List (Nat × List Nat)) (x a : Nat)
    (h : (alGet? cache a).isSome) :
    (alGet? (cacheLoad toks0 cache x) a).isSome := by
  unfold cacheLoad
  by_cases hmiss : (alGet? cache x).isNone
  · rw [if_pos hmiss]
    by_cases hax : a = x
    · subst hax
      rw [alGet?_alSet_self]
      rfl
    · rwa [alGet?_alSet_ne _ _ _ _ hax]
  · rwa [if_neg hmiss]

theorem cacheLoad_nodup (toks0 cache : List (Nat × List Nat)) (x : Nat)
    (h : (alKeys cache).Nodup) : (alKeys (cacheLoad toks0 cache x)).Nodup := by
  unfold cacheLoad
  by_cases hmiss : (alGet? cache x).isNone
  · rw [if_pos hmiss]
    exact alKeys_alSet_nodup _ _ _ h
  · rwa [if_neg hmiss]

theorem cacheLoad_other (toks0 cache : List (Nat × List Nat)) (x a : Nat)
    (h : a ≠ x) : alGet? (cacheLoad toks0 cache x) a = alGet? cache a := by
  unfold cacheLoad
  by_cases hmiss : (alGet? cache x).isNone
  · rw [if_pos hmiss, alGet?_alSet_ne _ _ _ _ h]
  · rw [if_neg hmiss]

theorem batchGo_atomic_spec (bal0 : List (Nat × Nat)) (toks0 : List (Nat × List Nat)) :
    ∀ (ps : List TransferParams) (scur : Storage) (i succ : Nat)
      (deltas : List (Nat × Int)) (cache : List (Nat × List Nat))
      (errs : List BatchError),
    scur.guard = false →
    (∀ a, ((alGetD bal0 a 0 : Nat) : Int) + alGetD deltas a 0 = (scur.balanceOf a : Int)) →
    (∀ a, (alGet? cache a).getD (alGetD toks0 a []) = scur.tokensOf a) →
    alIntSum deltas = 0 →
    (alKeys deltas).Nodup →
    (alKeys cache).Nodup →
    (∀ p ∈ ps, ∃ nft, alGet? scur.nfts p.token_id = some nft ∧ nft.owner = p.frm) →
    (ps.map TransferParams.token_id).Nodup →
    (∀ p ∈ ps, p.frm ≠ p.toAddr) →
    (∀ a, outCount ps a ≤ scur.balanceOf a) →
    ∃ deltas2 cache2,
      batchGo toks0 BatchMode.Atomic ps i scur.nfts deltas cache errs succ =
        .finished (seqTransfers scur ps).nfts deltas2 cache2 errs (succ + ps.length) ∧
      (∀ a, ((alGetD bal0 a 0 : Nat) : Int) + alGetD deltas2 a 0 =
        ((seqTransfers scur ps).balanceOf a : Int)) ∧
      (∀ a, (alGet? cache2 a).getD (alGetD toks0 a []) = (seqTransfers scur ps).tokensOf a) ∧
      alIntSum deltas2 = 0 ∧
      (alKeys deltas2).Nodup ∧ (alKeys cache2).Nodup ∧
      SeqOk scur ps ∧ (seqTransfers scur ps).guard = false ∧
      (seqTransfers scur ps).tokenCounter = scur.tokenCounter ∧
      (seqTransfers scur ps).admin = scur.admin ∧
      (seqTransfers scur ps).tokenIds = scur.tokenIds := by
  intro ps
  induction ps with
  | nil =>
    intro scur i succ deltas cache errs hg hdelta hcache hdsum hdnd hcnd _ _ _ _
    exact ⟨deltas, cache, by simp [batchGo, seqTransfers], hdelta, hcache, hdsum,
      hdnd, hcnd, SeqOk.nil scur, hg, rfl, rfl, rfl⟩
  | cons p rest ih =>
    intro scur i succ deltas cache errs hg hdelta hcache hdsum hdnd hcnd hvalid hnodup hns hout
    obtain ⟨nft, hget, hown⟩ := hvalid p (List.mem_cons_self _ _)
    have hft : p.frm ≠ p.toAddr := hns p (List.mem_cons_self _ _)
    have htf : p.toAddr ≠ p.frm := Ne.symm hft
    have hfb : 0 < scur.balanceOf p.frm := by
      have h1 := hout p.frm
      rw [outCount_cons, if_pos rfl] at h1
      omega
    have htr : transfer scur p.frm p.toAddr p.token_id =
        (.ok (), transferPost scur p.frm p.toAddr p.token_id nft) :=
      transfer_ok _ _ _ _ _ hg hget hown
    have htr2 : (transfer scur p.frm p.toAddr p.token_id).2 =
        transferPost scur p.frm p.toAddr p.token_id nft := by rw [htr]
    have hseqcons : seqTransfers scur (p :: rest) =
        seqTransfers (transferPost scur p.frm p.toAddr p.token_id nft) rest := by
      rw [seqTransfers_cons, htr2]
    set scur2 := transferPost scur p.frm p.toAddr p.token_id nft with hscur2
    set d1 := alSet deltas p.frm (alGetD deltas p.frm 0 - 1) with hd1def
    set d2 := alSet d1 p.toAddr (alGetD d1 p.toAddr 0 + 1) with hd2def
    set c1 := cacheLoad toks0 cache p.frm with hc1def
    set c2 := cacheLoad toks0 c1 p.toAddr with hc2def
    -- the cached lists agree with the sequential state before this entry
    have hc2u : ∀ a, (alGet? c2 a).getD (alGetD toks0 a []) = scur.tokensOf a :=
      cacheLoad_unified _ _ _ _ (cacheLoad_unified _ _ _ _ hcache)
    have hc2somef : (alGet? c2 p.frm).isSome :=
      cacheLoad_isSome_mono _ _ _ _ (cacheLoad_isSome_self _ _ _)
    have hc2somet : (alGet? c2 p.toAddr).isSome := cacheLoad_isSome_self _ _ _
    have hc2f : alGetD c2 p.frm [] = scur.tokensOf p.frm := by
      rw [alGetD_eq_getD_of_isSome _ _ _ (alGetD toks0 p.frm []) hc2somef]
      exact hc2u p.frm
    set c3 := alSet c2 p.frm ((alGetD c2 p.frm []).erase p.token_id) with hc3def
    have hc3t : alGetD c3 p.toAddr [] = scur.tokensOf p.toAddr := by
      rw [hc3def, alGetD_alSet_ne _ _ _ _ _ htf]
      rw [alGetD_eq_getD_of_isSome _ _ _ (alGetD toks0 p.toAddr []) hc2somet]
      exact hc2u p.toAddr
    set c4 := alSet c3 p.toAddr (alGetD c3 p.toAddr [] ++ [p.token_id]) with hc4def
    have hstep := batchGo_cons_ok toks0 BatchMode.Atomic rest i succ scur.nfts
      deltas d1 d2 cache c1 c2 c3 c4 errs p nft hget hown hd1def hd2def hc1def
      hc2def hc3def hc4def
    -- invariants for the tail at the updated accumulators
    have hnfts2 : alSet scur.nfts p.token_id { nft with owner := p.toAddr } =
        scur2.nfts := (transferPost_nfts _ _ _ _ _).symm
    have hg2 : scur2.guard = false := transferPost_guard _ _ _ _ _
    have hd2f : alGetD d2 p.frm 0 = alGetD deltas p.frm 0 - 1 := by
      rw [hd2def, alGetD_alSet_ne _ _ _ _ _ hft, hd1def, alGetD_alSet_self]
    have hd2t : alGetD d2 p.toAddr 0 = alGetD deltas p.toAddr 0 + 1 := by
      rw [hd2def, alGetD_alSet_self, hd1def, alGetD_alSet_ne _ _ _ _ _ htf]
    have hd2o : ∀ a, a ≠ p.frm → a ≠ p.toAddr → alGetD d2 a 0 = alGetD deltas a 0 := by
      intro a haf hat
      rw [hd2def, alGetD_alSet_ne _ _ _ _ _ hat, hd1def, alGetD_alSet_ne _ _ _ _ _ haf]
    have hdelta2 : ∀ a, ((alGetD bal0 a 0 : Nat) : Int) + alGetD d2 a 0 =
        (scur2.balanceOf a : Int) := by
      intro a
      by_cases haf : a = p.frm
      · subst haf
        rw [hd2f, hscur2, transferPost_balanceOf_frm _ _ _ _ _ hft hfb]
        have := hdelta p.frm
        omega
      · by_cases hat : a = p.toAddr
        · subst hat
          rw [hd2t, hscur2, transferPost_balanceOf_toAddr]
          have := hdelta p.toAddr
          push_cast
          omega
        · rw [hd2o a haf hat, hscur2, transferPost_balanceOf_other _ _ _ _ _ _ haf hat]
          exact hdelta a
    have hcache2 : ∀ a, (alGet? c4 a).getD (alGetD toks0 a []) = scur2.tokensOf a := by
      intro a
      by_cases hat : a = p.toAddr
      · subst hat
        rw [hc4def, alGet?_alSet_self, Option.getD_some, hc3t, hscur2,
          transferPost_tokensOf_toAddr _ _ _ _ _ hft]
      · by_cases haf : a = p.frm
        · subst haf
          rw [hc4def, alGet?_alSet_ne _ _ _ _ hat, hc3def, alGet?_alSet_self,
            Option.getD_some, hc2f, hscur2, transferPost_tokensOf_frm _ _ _ _ _ hft]
        · rw [hc4def, alGet?_alSet_ne _ _ _ _ hat, hc3def, alGet?_alSet_ne _ _ _ _ haf,
            hc2def, cacheLoad_other _ _ _ _ hat, hc1def, cacheLoad_other _ _ _ _ haf,
            hscur2, transferPost_tokensOf_other _ _ _ _ _ _ haf hat]
          exact hcache a
    have hdsum2 : alIntSum d2 = 0 := by
      have h1 : alIntSum d1 = alIntSum deltas + (alGetD deltas p.frm 0 - 1) -
          alGetD deltas p.frm 0 := by
        rw [hd1def]
        exact alIntSum_alSet _ _ _
      have h2 : alIntSum d2 = alIntSum d1 + (alGetD d1 p.toAddr 0 + 1) -
          alGetD d1 p.toAddr 0 := by
        rw [hd2def]
        exact alIntSum_alSet _ _ _
      omega
    have hdnd2 : (alKeys d2).Nodup := by
      rw [hd2def, hd1def]
      exact alKeys_alSet_nodup _ _ _ (alKeys_alSet_nodup _ _ _ hdnd)
    have hcnd2 : (alKeys c4).Nodup := by
      rw [hc4def, hc3def, hc2def, hc1def]
      exact alKeys_alSet_nodup _ _ _ (alKeys_alSet_nodup _ _ _
        (cacheLoad_nodup _ _ _ (cacheLoad_nodup _ _ _ hcnd)))
    have hvalid2 : ∀ q ∈ rest, ∃ nft2, alGet? scur2.nfts q.token_id = some nft2 ∧
        nft2.owner = q.frm := by
      intro q hq
      obtain ⟨nft2, hget2, hown2⟩ := hvalid q (List.mem_cons_of_mem _ hq)
      refine ⟨nft2, ?_, hown2⟩
      have hqt : q.token_id ≠ p.token_id := by
        simp only [List.map_cons, List.nodup_cons] at hnodup
        intro hc
        exact hnodup.1 (hc ▸ List.mem_map.mpr ⟨q, hq, rfl⟩)
      rw [hscur2, transferPost_nfts, alGet?_alSet_ne _ _ _ _ hqt]
      exact hget2
    have hnodup2 : (rest.map TransferParams.token_id).Nodup := by
      simp only [List.map_cons, List.nodup_cons] at hnodup
      exact hnodup.2
    have hns2 : ∀ q ∈ rest, q.frm ≠ q.toAddr :=
      fun q hq => hns q (List.mem_cons_of_mem _ hq)
    have hout2 : ∀ a, outCount rest a ≤ scur2.balanceOf a := by
      intro a
      have h1 := hout a
      rw [outCount_cons] at h1
      by_cases haf : a = p.frm
      · subst haf
        rw [if_pos rfl] at h1
        rw [hscur2, transferPost_balanceOf_frm _ _ _ _ _ hft hfb]
        omega
      · rw [if_neg (fun h => haf h.symm)] at h1
        by_cases hat : a = p.toAddr
        · subst hat
          rw [hscur2, transferPost_balanceOf_toAddr]
          omega
        · rw [hscur2, transferPost_balanceOf_other _ _ _ _ _ _ haf hat]
          omega
    obtain ⟨deltas2, cache2, heq, hi1, hi2, hi3, hi4, hi5, hi6, hi7, hi8, hi9, hi10⟩ :=
      ih scur2 (i + 1) (succ + 1) d2 c4 errs hg2 hdelta2 hcache2 hdsum2 hdnd2
        hcnd2 hvalid2 hnodup2 hns2 hout2
    refine ⟨deltas2, cache2, ?_, ?_, ?_, hi3, hi4, hi5, ?_, ?_, ?_, ?_, ?_⟩
    · rw [hstep, hnfts2, heq, hseqcons]
      have harith : succ + 1 + rest.length = succ + (p :: rest).length := by
        simp [List.length_cons]
        omega
      rw [harith]
    · rw [hseqcons]
      exact hi1
    · rw [hseqcons]
      exact hi2
    · exact SeqOk.cons scur p rest (by rw [htr]) (htr2 ▸ hi6)
    · rw [hseqcons]
      exact hi7
    · rw [hseqcons, hi8, hscur2, transferPost_tokenCounter]
    · rw [hseqcons, hi9, hscur2, transferPost_admin]
    · rw [hseqcons, hi10, hscur2, transferPost_tokenIds]

@[simp] theorem withGuard_admin (s : Storage) (b : Bool) :
    ({ s with guard := b } : Storage).admin = s.admin := rfl

@[simp] theorem withGuard_tokenCounter (s : Storage) (b : Bool) :
    ({ s with guard := b } : Storage).tokenCounter = s.tokenCounter := rfl

@[simp] theorem withGuard_nfts (s : Storage) (b : Bool) :
    ({ s with guard := b } : Storage).nfts = s.nfts := rfl

@[simp] theorem withGuard_balances (s : Storage) (b : Bool) :
    ({ s with guard := b } : Storage).balances = s.balances := rfl

@[simp] theorem withGuard_ownerTokens (s : Storage) (b : Bool) :
    ({ s with guard := b } : Storage).ownerTokens = s.ownerTokens := rfl

@[simp] theorem withGuard_tokenIds (s : Storage) (b : Bool) :
    ({ s with guard := b } : Storage).tokenIds = s.tokenIds := rfl

theorem batch_atomic_ok_spec (s : Storage) (ps : List TransferParams)
    (hg : s.guard = false) (hlen : ps.length ≤ MAX_BATCH_SIZE)
    (hvalid : ∀ p ∈ ps, ∃ nft, alGet? s.nfts p.token_id = some nft ∧ nft.owner = p.frm)
    (hnd : (ps.map TransferParams.token_id).Nodup)
    (hns : ∀ p ∈ ps, p.frm ≠ p.toAddr)
    (hout : ∀ a, outCount ps a ≤ s.balanceOf a) :
    (batch_transfer s ps BatchMode.Atomic).1 = .done ps.length [] ∧
    SeqOk s ps ∧
    (batch_transfer s ps BatchMode.Atomic).2.nfts = (seqTransfers s ps).nfts ∧
    (∀ a, (batch_transfer s ps BatchMode.Atomic).2.balanceOf a =
      (seqTransfers s ps).balanceOf a) ∧
    (∀ a, (batch_transfer s ps BatchMode.Atomic).2.tokensOf a =
      (seqTransfers s ps).tokensOf a) ∧
    (batch_transfer s ps BatchMode.Atomic).2.guard = false ∧
    (seqTransfers s ps).guard = false ∧
    alValsSum (batch_transfer s ps BatchMode.Atomic).2.balances = alValsSum s.balances ∧
    (batch_transfer s ps BatchMode.Atomic).2.tokenCounter = s.tokenCounter ∧
    (batch_transfer s ps BatchMode.Atomic).2.admin = s.admin ∧
    (batch_transfer s ps BatchMode.Atomic).2.tokenIds = s.tokenIds ∧
    (seqTransfers s ps).tokenCounter = s.tokenCounter := by
  have hlim : enforce_batch_limits ps.length = true := by
    simpa [enforce_batch_limits] using hlen
  obtain ⟨dfin, cfin, heq, hbal, htoks, hsum0, hdnd, hcnd, hseqok, hgseq, hcnt, hadm, htids⟩ :=
    batchGo_atomic_spec s.balances s.ownerTokens ps s 0 0 [] [] [] hg
      (by intro a; simp [alGetD, alGet?, Storage.balanceOf])
      (by intro a; simp [alGetD, alGet?, Storage.tokensOf])
      rfl (by simp [alKeys]) (by simp [alKeys]) hvalid hnd hns hout
  have hbt : batch_transfer s ps BatchMode.Atomic =
      (.done (0 + ps.length) [],
        { s with nfts := (seqTransfers s ps).nfts
                 balances := applyDeltas s.balances dfin
                 ownerTokens := applyTokenLists s.ownerTokens cfin
                 guard := false }) := by
    simp only [batch_transfer, hg, Bool.false_eq_true, if_false, hlim, not_true,
      withGuard_nfts, withGuard_ownerTokens, withGuard_balances, heq]
  have hDspec := applyDeltas_go dfin s.balances s.balances
    (fun a => (seqTransfers s ps).balanceOf a) hdnd
    (fun a _ => rfl)
    (fun a ha => by
      have h1 := hbal a
      have h2 : alGet? dfin a = none := alGet?_eq_none _ _ ha
      have h3 : alGetD dfin a 0 = 0 := by simp [alGetD, h2]
      rw [h3] at h1
      have h4 : ((alGetD s.balances a 0 : Nat) : Int) =
          ((seqTransfers s ps).balanceOf a : Int) := by omega
      exact_mod_cast h4)
    (fun a _ => hbal a)
  have hTspec := applyTokenLists_go cfin s.ownerTokens
    (fun a => (seqTransfers s ps).tokensOf a) hcnd
    (fun q hq => by
      obtain ⟨k, v⟩ := q
      have hsome : alGet? cfin k = some v := alGet?_eq_some_of_mem_nodup hcnd hq
      have := htoks k
      rw [hsome] at this
      simpa using this)
    (fun a ha => by
      have h2 : alGet? cfin a = none := alGet?_eq_none _ _ ha
      have := htoks a
      rw [h2] at this
      simpa [Storage.tokensOf] using this)
  refine ⟨?_, hseqok, ?_, ?_, ?_, ?_, hgseq, ?_, ?_, ?_, ?_, hcnt⟩
  · rw [hbt]
    simp
  · rw [hbt]
  · intro a
    rw [hbt]
    exact hDspec.1 a
  · intro a
    rw [hbt]
    exact hTspec a
  · rw [hbt]
  · rw [hbt]
    have := hDspec.2
    rw [hsum0] at this
    have h0 : (alValsSum (applyDeltas s.balances dfin) : Int) = (alValsSum s.balances : Int) := by
      omega
    exact_mod_cast h0
  · rw [hbt]
  · rw [hbt]
  · rw [hbt]

/-- C1 (amended): for every list of valid transfers (each token exists and
is owned by its entry's sender) of pairwise distinct tokens in which no
entry is a self-transfer, within the batch-size ceiling, starting from a
free-guard state in which each address's balance counter is at least its
number of outgoing entries (as in every consistently tracked ledger state),
`batch_transfer` in Atomic mode succeeds on every entry and produces exactly
the same per-token owner map, per-address balance counters and per-address
owner token lists as applying the transfers sequentially one at a time. -/
theorem claim_C1 (s : Storage) (ps : List TransferParams)
    (hg : s.guard = false) (hlen : ps.length ≤ MAX_BATCH_SIZE)
    (hvalid : ∀ p ∈ ps, ∃ nft, alGet? s.nfts p.token_id = some nft ∧ nft.owner = p.frm)
    (hnd : (ps.map TransferParams.token_id).Nodup)
    (hns : ∀ p ∈ ps, p.frm ≠ p.toAddr)
    (hout : ∀ a, outCount ps a ≤ s.balanceOf a) :
    (batch_transfer s ps BatchMode.Atomic).1 = .done ps.length [] ∧
    SeqOk s ps ∧
    (∀ tid, alGet? (batch_transfer s ps BatchMode.Atomic).2.nfts tid =
      alGet? (seqTransfers s ps).nfts tid) ∧
    (∀ a, (batch_transfer s ps BatchMode.Atomic).2.balanceOf a =
      (seqTransfers s ps).balanceOf a) ∧
    (∀ a, (batch_transfer s ps BatchMode.Atomic).2.tokensOf a =
      (seqTransfers s ps).tokensOf a) ∧
    (batch_transfer s ps BatchMode.Atomic).2.guard = (seqTransfers s ps).guard := by
  obtain ⟨h1, h2, h3, h4, h5, h6, h7, _⟩ :=
    batch_atomic_ok_spec s ps hg hlen hvalid hnd hns hout
  exact ⟨h1, h2, fun tid => by rw [h3], h4, h5, by rw [h6, h7]⟩

/-- Counterexample to C1 as stated: a batch consisting of the single valid
self-transfer of token 0 by owner 1 (who owns it with balance counter 1)
succeeds in both engines, but the batch leaves the balance counter at 1
while the sequential single `transfer` bumps it to 2 — so the batch final
state is not identical to the sequential final state. -/
theorem claim_C1_counterexample :
    (batch_transfer (mint (init_contract emptyStorage 9).2 0 1 "c" 30 10 "safe" 1000 7 5).2
      [⟨1, 1, 0⟩] BatchMode.Atomic).1 = .done 1 [] ∧
    (batch_transfer (mint (init_contract emptyStorage 9).2 0 1 "c" 30 10 "safe" 1000 7 5).2
      [⟨1, 1, 0⟩] BatchMode.Atomic).2.balanceOf 1 = 1 ∧
    (transfer (mint (init_contract emptyStorage 9).2 0 1 "c" 30 10 "safe" 1000 7 5).2
      1 1 0).1 = .ok () ∧
    (transfer (mint (init_contract emptyStorage 9).2 0 1 "c" 30 10 "safe" 1000 7 5).2
      1 1 0).2.balanceOf 1 = 2 ∧
    (batch_transfer (mint (init_contract emptyStorage 9).2 0 1 "c" 30 10 "safe" 1000 7 5).2
      [⟨1, 1, 0⟩] BatchMode.Atomic).2.balanceOf 1 ≠
    (transfer (mint (init_contract emptyStorage 9).2 0 1 "c" 30 10 "safe" 1000 7 5).2
      1 1 0).2.balanceOf 1 :=
  ⟨rfl, rfl, rfl, rfl, by decide⟩

/-- Witness for C1 at a concrete input: a two-entry batch moving tokens 0
and 1 from owners 1 and 3 to address 2 agrees with the sequential execution
on the touched addresses and tokens. -/
theorem claim_C1_witness :
    (batch_transfer
      (mint (mint (init_contract emptyStorage 9).2 0 1 "c" 30 10 "safe" 1000 7 5).2
        0 3 "d" 30 10 "balanced" 500 7 5).2
      [⟨1, 2, 0⟩, ⟨3, 2, 1⟩] BatchMode.Atomic).1 = .done 2 [] ∧
    (batch_transfer
      (mint (mint (init_contract emptyStorage 9).2 0 1 "c" 30 10 "safe" 1000 7 5).2
        0 3 "d" 30 10 "balanced" 500 7 5).2
      [⟨1, 2, 0⟩, ⟨3, 2, 1⟩] BatchMode.Atomic).2.balanceOf 2 =
    (seqTransfers
      (mint (mint (init_contract emptyStorage 9).2 0 1 "c" 30 10 "safe" 1000 7 5).2
        0 3 "d" 30 10 "balanced" 500 7 5).2
      [⟨1, 2, 0⟩, ⟨3, 2, 1⟩]).balanceOf 2 ∧
    (batch_transfer
      (mint (mint (init_contract emptyStorage 9).2 0 1 "c" 30 10 "safe" 1000 7 5).2
        0 3 "d" 30 10 "balanced" 500 7 5).2
      [⟨1, 2, 0⟩, ⟨3, 2, 1⟩] BatchMode.Atomic).2.tokensOf 2 =
    (seqTransfers
      (mint (mint (init_contract emptyStorage 9).2 0 1 "c" 30 10 "safe" 1000 7 5).2
        0 3 "d" 30 10 "balanced" 500 7 5).2
      [⟨1, 2, 0⟩, ⟨3, 2, 1⟩]).tokensOf 2 ∧
    alGet? (batch_transfer
      (mint (mint (init_contract emptyStorage 9).2 0 1 "c" 30 10 "safe" 1000 7 5).2
        0 3 "d" 30 10 "balanced" 500 7 5).2
      [⟨1, 2, 0⟩, ⟨3, 2, 1⟩] BatchMode.Atomic).2.nfts 0 =
    alGet? (seqTransfers
      (mint (mint (init_contract emptyStorage 9).2 0 1 "c" 30 10 "safe" 1000 7 5).2
        0 3 "d" 30 10 "balanced" 500 7 5).2
      [⟨1, 2, 0⟩, ⟨3, 2, 1⟩]).nfts 0 := by
  have h := claim_C1
    (mint (mint (init_contract emptyStorage 9).2 0 1 "c" 30 10 "safe" 1000 7 5).2
      0 3 "d" 30 10 "balanced" 500 7 5).2
    [⟨1, 2, 0⟩, ⟨3, 2, 1⟩] rfl (by decide)
    (by
      intro p hp
      simp only [List.mem_cons, List.not_mem_nil, or_false] at hp
      rcases hp with rfl | rfl
      · exact ⟨{ owner := 1, token_id := 0
                 metadata := { commitment_id := "c", duration_days := 30
                               max_loss_percent := 10, commitment_type := "safe"
                               created_at := 0, expires_at := 2592000
                               initial_amount := 1000, asset_address := 7 }
                 is_active := true, early_exit_penalty := 5 }, rfl, rfl⟩
      · exact ⟨{ owner := 3, token_id := 1
                 metadata := { commitment_id := "d", duration_days := 30
                               max_loss_percent := 10, commitment_type := "balanced"
                               created_at := 0, expires_at := 2592000
                               initial_amount := 500, asset_address := 7 }
                 is_active := true, early_exit_penalty := 5 }, rfl, rfl⟩)
    (by decide) (by decide)
    (by
      intro a
      by_cases h1 : a = 1
      · subst h1
        decide
      · by_cases h3 : a = 3
        · subst h3
          decide
        · have hz : outCount [⟨1, 2, 0⟩, ⟨3, 2, 1⟩] a = 0 := by
            have e1 : ¬ ((1 : Nat) = a) := fun h => h1 h.symm
            have e3 : ¬ ((3 : Nat) = a) := fun h => h3 h.symm
            simp [outCount, List.filter, e1, e3]
          rw [hz]
          exact Nat.zero_le _)
  exact ⟨h.1, h.2.2.2.1 2, h.2.2.2.2.1 2, h.2.2.1 0⟩

/-- C2: evaluation of the code at the failing input.  An Atomic batch whose
second entry references the missing token 99 returns a failure and applies
no balance or token-list changes with the guard released, but the owner
record written by the first entry is NOT rolled back: token 0's owner has
changed from 1 to 2 despite the aborted batch, contradicting the zero-
mutation contract of Atomic mode. -/
theorem claim_C2 :
    (batch_transfer (mint (init_contract emptyStorage 9).2 0 1 "c" 30 10 "safe" 1000 7 5).2
      [⟨1, 2, 0⟩, ⟨1, 2, 99⟩] BatchMode.Atomic).1 =
      .fail [⟨1, ContractError.TokenNotFound.code, "token_not_found"⟩] ∧
    (alGet? (batch_transfer (mint (init_contract emptyStorage 9).2 0 1 "c" 30 10 "safe" 1000 7 5).2
      [⟨1, 2, 0⟩, ⟨1, 2, 99⟩] BatchMode.Atomic).2.nfts 0).map NFT.owner = some 2 ∧
    (alGet? (mint (init_contract emptyStorage 9).2 0 1 "c" 30 10 "safe" 1000 7 5).2.nfts 0).map
      NFT.owner = some 1 ∧
    (batch_transfer (mint (init_contract emptyStorage 9).2 0 1 "c" 30 10 "safe" 1000 7 5).2
      [⟨1, 2, 0⟩, ⟨1, 2, 99⟩] BatchMode.Atomic).2.balances =
      (mint (init_contract emptyStorage 9).2 0 1 "c" 30 10 "safe" 1000 7 5).2.balances ∧
    (batch_transfer (mint (init_contract emptyStorage 9).2 0 1 "c" 30 10 "safe" 1000 7 5).2
      [⟨1, 2, 0⟩, ⟨1, 2, 99⟩] BatchMode.Atomic).2.ownerTokens =
      (mint (init_contract emptyStorage 9).2 0 1 "c" 30 10 "safe" 1000 7 5).2.ownerTokens ∧
    (batch_transfer (mint (init_contract emptyStorage 9).2 0 1 "c" 30 10 "safe" 1000 7 5).2
      [⟨1, 2, 0⟩, ⟨1, 2, 99⟩] BatchMode.Atomic).2.guard = false :=
  ⟨rfl, rfl, rfl, rfl, rfl, rfl⟩

theorem mem_alKeys_of_alGet? {β : Type} {l : List (Nat × β)} {k : Nat} {v : β}
    (h : alGet? l k = some v) : k ∈ alKeys l :=
  List.mem_map.mpr ⟨(k, v), mem_of_alGet?_eq_some h, rfl⟩

theorem alGet?_eq_some_decomp {β : Type} {l : List (Nat × β)} {k : Nat} {v : β}
    (h : alGet? l k = some v) :
    ∃ l1 l2, l = l1 ++ (k, v) :: l2 ∧ k ∉ alKeys l1 := by
  induction l with
  | nil => simp [alGet?] at h
  | cons hd t ih =>
    by_cases hk : hd.1 = k
    · simp only [alGet?, hk, if_pos] at h
      refine ⟨[], t, ?_, by simp [alKeys]⟩
      cases hd
      simp_all
    · simp only [alGet?, hk, if_neg, not_false_iff] at h
      obtain ⟨l1, l2, heq, hnm⟩ := ih h
      refine ⟨hd :: l1, l2, by rw [heq]; simp, ?_⟩
      rw [mem_alKeys_cons]
      push_neg
      exact ⟨fun hh => hk hh.symm, hnm⟩

theorem alGet?_append_middle_ne {β : Type} (l1 l2 : List (Nat × β)) (k k2 : Nat)
    (v : β) (h : k ≠ k2) :
    alGet? (l1 ++ (k, v) :: l2) k2 = alGet? (l1 ++ l2) k2 := by
  induction l1 with
  | nil => simp [alGet?, h]
  | cons hd t ih =>
    by_cases hk : hd.1 = k2
    · simp [alGet?, hk]
    · simp [alGet?, hk, ih]

theorem countP_append_middle {β : Type} (l1 l2 : List (Nat × β)) (kv : Nat × β)
    (p : Nat × β → Bool) :
    (l1 ++ kv :: l2).countP p = (l1 ++ l2).countP p + (if p kv then 1 else 0) := by
  simp only [List.countP_append, List.countP_cons]
  by_cases hp : p kv
  · simp [hp]
    omega
  · simp [hp]

theorem keys_length_le_countP (K : List Nat) :
    ∀ (l : List (Nat × NFT)) (p : NFT → Bool), K.Nodup →
    (∀ k ∈ K, ∃ v, alGet? l k = some v ∧ p v) →
    K.length ≤ l.countP (fun kv => p kv.2) := by
  induction K with
  | nil => intro l p _ _; simp
  | cons k K2 ih =>
    intro l p hnd hall
    obtain ⟨v, hget, hpv⟩ := hall k (List.mem_cons_self _ _)
    obtain ⟨l1, l2, heq, _⟩ := alGet?_eq_some_decomp hget
    simp only [List.nodup_cons] at hnd
    have hcount : l.countP (fun kv => p kv.2) =
        (l1 ++ l2).countP (fun kv => p kv.2) + 1 := by
      rw [heq, countP_append_middle, if_pos hpv]
    have hrest : ∀ k2 ∈ K2, ∃ v2, alGet? (l1 ++ l2) k2 = some v2 ∧ p v2 := by
      intro k2 hk2
      obtain ⟨v2, hget2, hp2⟩ := hall k2 (List.mem_cons_of_mem _ hk2)
      have hne : k ≠ k2 := fun hh => hnd.1 (hh ▸ hk2)
      refine ⟨v2, ?_, hp2⟩
      rw [← alGet?_append_middle_ne l1 l2 k k2 v hne, ← heq]
      exact hget2
    have := ih (l1 ++ l2) p hnd.2 hrest
    simp only [List.length_cons]
    omega

theorem outCount_le_ownedCount (s : Storage) (ps : List TransferParams)
    (hvalid : ∀ p ∈ ps, ∃ nft, alGet? s.nfts p.token_id = some nft ∧ nft.owner = p.frm)
    (hnd : (ps.map TransferParams.token_id).Nodup) (a : Nat) :
    outCount ps a ≤ ownedCount s a := by
  have hsub : ((ps.filter (fun p => p.frm = a)).map TransferParams.token_id).Sublist
      (ps.map TransferParams.token_id) :=
    (List.filter_sublist _).map _
  have hknd : ((ps.filter (fun p => p.frm = a)).map TransferParams.token_id).Nodup :=
    hnd.sublist hsub
  have hlen : outCount ps a =
      ((ps.filter (fun p => p.frm = a)).map TransferParams.token_id).length := by
    simp [outCount]
  rw [hlen]
  refine keys_length_le_countP _ s.nfts (fun v => v.owner = a) hknd ?_
  intro k hk
  obtain ⟨q, hq, hqk⟩ := List.mem_map.mp hk
  have hq2 := List.mem_filter.mp hq
  obtain ⟨nft, hget, hown⟩ := hvalid q hq2.1
  refine ⟨nft, hqk ▸ hget, ?_⟩
  have : q.frm = a := by simpa using hq2.2
  simp [hown, this]

theorem mintPost_nfts (s : Storage) (now owner : Nat) (cid : String) (d ml : Nat)
    (ct : String) (amt : Int) (asset pen : Nat) :
    (mintPost s now owner cid d ml ct amt asset pen).nfts =
      alSet s.nfts s.tokenCounter (mintedNFT s now owner cid d ml ct amt asset pen) := rfl

theorem mintPost_balances (s : Storage) (now owner : Nat) (cid : String) (d ml : Nat)
    (ct : String) (amt : Int) (asset pen : Nat) :
    (mintPost s now owner cid d ml ct amt asset pen).balances =
      alSet s.balances owner (alGetD s.balances owner 0 + 1) := rfl

theorem mintPost_tokenCounter (s : Storage) (now owner : Nat) (cid : String) (d ml : Nat)
    (ct : String) (amt : Int) (asset pen : Nat) :
    (mintPost s now owner cid d ml ct amt asset pen).tokenCounter = s.tokenCounter + 1 := rfl

theorem mintPost_guard (s : Storage) (now owner : Nat) (cid : String) (d ml : Nat)
    (ct : String) (amt : Int) (asset pen : Nat) :
    (mintPost s now owner cid d ml ct amt asset pen).guard = false := rfl

theorem transferPost_balances_pos (s : Storage) (f t tid : Nat) (nft : NFT)
    (hfb : 0 < alGetD s.balances f 0) :
    (transferPost s f t tid nft).balances =
      alSet (alSet s.balances f (alGetD s.balances f 0 - 1)) t
        (alGetD s.balances t 0 + 1) := by
  simp only [transferPost]
  rw [if_pos hfb]

theorem settlePost_balances (s : Storage) (tid : Nat) (nft : NFT) :
    (settlePost s tid nft).balances = s.balances := rfl

theorem settlePost_tokenCounter (s : Storage) (tid : Nat) (nft : NFT) :
    (settlePost s tid nft).tokenCounter = s.tokenCounter := rfl

theorem settlePost_nfts (s : Storage) (tid : Nat) (nft : NFT) :
    (settlePost s tid nft).nfts = alSet s.nfts tid { nft with is_active := false } := rfl

theorem good_init (admin : Nat) : GoodState (init_contract emptyStorage admin).2 := by
  refine ⟨rfl, fun a => le_refl 0, fun k hk => ?_, fun k hk => ?_, ?_, rfl⟩
  · simp [init_contract, emptyStorage, alKeys] at hk
  · simp [init_contract, emptyStorage] at hk
  · simp [init_contract, emptyStorage, alKeys]

theorem good_mintPost (s : Storage) (now owner : Nat) (cid : String) (d ml : Nat)
    (ct : String) (amt : Int) (asset pen : Nat) (h : GoodState s) :
    GoodState (mintPost s now owner cid d ml ct amt asset pen) := by
  obtain ⟨hsum, hle, hlt, hmem, hnd, _⟩ := h
  have hfresh : s.tokenCounter ∉ alKeys s.nfts :=
    fun hc => absurd (hlt _ hc) (lt_irrefl _)
  have happ : alSet s.nfts s.tokenCounter (mintedNFT s now owner cid d ml ct amt asset pen) =
      s.nfts ++ [(s.tokenCounter, mintedNFT s now owner cid d ml ct amt asset pen)] :=
    alSet_eq_append _ _ _ hfresh
  have hkeys : alKeys (mintPost s now owner cid d ml ct amt asset pen).nfts =
      alKeys s.nfts ++ [s.tokenCounter] := by
    rw [mintPost_nfts, happ]
    simp [alKeys]
  refine ⟨?_, ?_, ?_, ?_, ?_, mintPost_guard _ _ _ _ _ _ _ _ _ _⟩
  · show alValsSum (mintPost s now owner cid d ml ct amt asset pen).balances =
      (mintPost s now owner cid d ml ct amt asset pen).tokenCounter
    rw [mintPost_balances, mintPost_tokenCounter]
    have hset := alValsSum_alSet s.balances owner (alGetD s.balances owner 0 + 1)
    omega
  · intro a
    have hcnt : ownedCount (mintPost s now owner cid d ml ct amt asset pen) a =
        ownedCount s a + (if owner = a then 1 else 0) := by
      show ((mintPost s now owner cid d ml ct amt asset pen).nfts.countP
        (fun kv => kv.2.owner = a)) = _
      rw [mintPost_nfts, happ]
      simp [List.countP_append, List.countP_cons, ownedCount, mintedNFT]
    have hbal : (mintPost s now owner cid d ml ct amt asset pen).balanceOf a =
        if owner = a then s.balanceOf a + 1 else s.balanceOf a := by
      show alGetD (mintPost s now owner cid d ml ct amt asset pen).balances a 0 = _
      rw [mintPost_balances]
      by_cases hoa : owner = a
      · subst hoa
        rw [alGetD_alSet_self, if_pos rfl]
        rfl
      · rw [alGetD_alSet_ne _ _ _ _ _ (fun hh => hoa hh.symm), if_neg hoa]
        rfl
    rw [hcnt, hbal]
    have := hle a
    by_cases hoa : owner = a <;> simp [hoa] <;> omega
  · intro k hk
    rw [hkeys] at hk
    rw [mintPost_tokenCounter]
    rcases List.mem_append.mp hk with hk | hk
    · exact Nat.lt_succ_of_lt (hlt k hk)
    · simp at hk
      omega
  · intro k hk
    rw [mintPost_tokenCounter] at hk
    rw [hkeys]
    rcases Nat.lt_succ_iff_lt_or_eq.mp hk with hk | hk
    · exact List.mem_append.mpr (Or.inl (hmem k hk))
    · exact List.mem_append.mpr (Or.inr (by simp [hk]))
  · rw [hkeys]
    simp [List.nodup_append, hnd, hfresh]

theorem good_transferPost (s : Storage) (f t tid : Nat) (nft : NFT)
    (h : GoodState s) (hft : f ≠ t) (hget : alGet? s.nfts tid = some nft)
    (hown : nft.owner = f) : GoodState (transferPost s f t tid nft) := by
  obtain ⟨hsum, hle, hlt, hmem, hnd, _⟩ := h
  have htf : t ≠ f := Ne.symm hft
  have hmemv : (tid, nft) ∈ s.nfts := mem_of_alGet?_eq_some hget
  have howned : 0 < ownedCount s f := by
    refine List.countP_pos_iff.mpr ⟨(tid, nft), hmemv, by simp [hown]⟩
  have hfb : 0 < s.balanceOf f := lt_of_lt_of_le howned (hle f)
  have hfb2 : 0 < alGetD s.balances f 0 := hfb
  have hkeys : alKeys (transferPost s f t tid nft).nfts = alKeys s.nfts := by
    rw [transferPost_nfts]
    exact alKeys_alSet_of_mem _ _ _ (mem_alKeys_of_alGet? hget)
  have hcnt : ∀ a, ownedCount (transferPost s f t tid nft) a +
      (if nft.owner = a then 1 else 0) =
      ownedCount s a + (if t = a then 1 else 0) := by
    intro a
    have hc := countP_alSet s.nfts tid { nft with owner := t } nft
      (fun kv => kv.2.owner = a) hget
    simpa [ownedCount, transferPost_nfts] using hc
  have hbals := transferPost_balances_pos s f t tid nft hfb2
  refine ⟨?_, ?_, ?_, ?_, ?_, transferPost_guard _ _ _ _ _⟩
  · show alValsSum (transferPost s f t tid nft).balances =
      (transferPost s f t tid nft).tokenCounter
    rw [transferPost_tokenCounter, hbals]
    have h1 := alValsSum_alSet s.balances f (alGetD s.balances f 0 - 1)
    have h2 := alValsSum_alSet (alSet s.balances f (alGetD s.balances f 0 - 1)) t
      (alGetD s.balances t 0 + 1)
    have h3 : alGetD (alSet s.balances f (alGetD s.balances f 0 - 1)) t 0 =
        alGetD s.balances t 0 := alGetD_alSet_ne _ _ _ _ _ htf
    rw [h3] at h2
    omega
  · intro a
    have hc := hcnt a
    by_cases haf : a = f
    · subst haf
      have hbal : (transferPost s a t tid nft).balanceOf a = s.balanceOf a - 1 :=
        transferPost_balanceOf_frm s a t tid nft hft hfb
      rw [hbal]
      have hownf : (if nft.owner = a then 1 else 0) = 1 := by simp [hown]
      have hta : ¬ (t = a) := fun hh => htf.symm hh.symm
      have htnf : (if t = a then 1 else 0) = 0 := by simp [hta]
      rw [hownf, htnf] at hc
      have := hle a
      omega
    · by_cases hat : a = t
      · subst hat
        have hbal : (transferPost s f a tid nft).balanceOf a = s.balanceOf a + 1 :=
          transferPost_balanceOf_toAddr s f a tid nft
        rw [hbal]
        have hfa : ¬ (nft.owner = a) := by
          rw [hown]
          exact fun hh => haf hh.symm
        have hownf : (if nft.owner = a then 1 else 0) = 0 := by simp [hfa]
        have htnf : (if a = a then 1 else 0) = 1 := by simp
        rw [hownf, htnf] at hc
        have := hle a
        omega
      · have hbal : (transferPost s f t tid nft).balanceOf a = s.balanceOf a :=
          transferPost_balanceOf_other s f t tid a nft haf hat
        rw [hbal]
        have hfa : ¬ (nft.owner = a) := by
          rw [hown]
          exact fun hh => haf hh.symm
        have hta : ¬ (t = a) := fun hh => hat hh.symm
        have hownf : (if nft.owner = a then 1 else 0) = 0 := by simp [hfa]
        have htnf : (if t = a then 1 else 0) = 0 := by simp [hta]
        rw [hownf, htnf] at hc
        have := hle a
        omega
  · intro k hk
    rw [hkeys] at hk
    rw [transferPost_tokenCounter]
    exact hlt k hk
  · intro k hk
    rw [transferPost_tokenCounter] at hk
    rw [hkeys]
    exact hmem k hk
  · rw [hkeys]
    exact hnd

theorem good_settlePost (s : Storage) (tid : Nat) (nft : NFT)
    (h : GoodState s) (hget : alGet? s.nfts tid = some nft) :
    GoodState (settlePost s tid nft) := by
  obtain ⟨hsum, hle, hlt, hmem, hnd, _⟩ := h
  have hkeys : alKeys (settlePost s tid nft).nfts = alKeys s.nfts := by
    rw [settlePost_nfts]
    exact alKeys_alSet_of_mem _ _ _ (mem_alKeys_of_alGet? hget)
  have hcnt : ∀ a, ownedCount (settlePost s tid nft) a = ownedCount s a := by
    intro a
    have hc := countP_alSet s.nfts tid { nft with is_active := false } nft
      (fun kv => kv.2.owner = a) hget
    simp only [ownedCount, settlePost_nfts]
    simp at hc
    omega
  refine ⟨hsum, fun a => by rw [hcnt a]; exact hle a, fun k hk => hlt k (hkeys ▸ hk),
    fun k hk => hkeys ▸ hmem k hk, hkeys ▸ hnd, rfl⟩

theorem transfer_snd_cases (s : Storage) (f t tid : Nat) (hg : s.guard = false) :
    (transfer s f t tid).2 = s ∨
    ∃ nft, alGet? s.nfts tid = some nft ∧ nft.owner = f ∧
      (transfer s f t tid).2 = transferPost s f t tid nft := by
  rcases halg : alGet? s.nfts tid with _ | nft
  · left
    rw [transfer_not_found s f t tid hg halg]
  · by_cases hown : nft.owner = f
    · right
      exact ⟨nft, rfl, hown, by rw [transfer_ok s f t tid nft hg halg hown]⟩
    · left
      rw [transfer_not_owner s f t tid nft hg halg hown]

theorem settle_snd_cases (s : Storage) (now tid : Nat) (hg : s.guard = false) :
    (settle s now tid).2 = s ∨
    ∃ nft, alGet? s.nfts tid = some nft ∧
      (settle s now tid).2 = settlePost s tid nft := by
  rcases halg : alGet? s.nfts tid with _ | nft
  · left
    rw [settle_not_found s now tid hg halg]
  · rcases ha : nft.is_active with _ | _
    · left
      rw [settle_already s now tid nft hg halg ha]
    · by_cases hlt : now < nft.metadata.expires_at
      · left
        rw [settle_not_expired s now tid nft hg halg ha hlt]
      · right
        exact ⟨nft, rfl, by rw [settle_ok s now tid nft hg halg ha (Nat.not_lt.mp hlt)]⟩

theorem mint_snd_cases (s : Storage) (now owner : Nat) (cid : String) (d ml : Nat)
    (ct : String) (amt : Int) (asset pen : Nat) (hg : s.guard = false) :
    (mint s now owner cid d ml ct amt asset pen).2 = s ∨
    (mint s now owner cid d ml ct amt asset pen).2 =
      mintPost s now owner cid d ml ct amt asset pen := by
  obtain ⟨ad, tc, nf, bal, ot, tids, g⟩ := s
  subst hg
  simp only [mint]
  repeat' split
  all_goals first
  | exact Or.inl rfl
  | exact Or.inr rfl

theorem good_seqTransfers (s : Storage) (ps : List TransferParams)
    (h : GoodState s) (hns : ∀ p ∈ ps, p.frm ≠ p.toAddr) :
    GoodState (seqTransfers s ps) := by
  induction ps generalizing s with
  | nil => exact h
  | cons p rest ih =>
    rw [seqTransfers_cons]
    have hg : s.guard = false := h.2.2.2.2.2
    rcases transfer_snd_cases s p.frm p.toAddr p.token_id hg with hc | ⟨nft, hget, hown, hc⟩
    · rw [hc]
      exact ih s h (fun q hq => hns q (List.mem_cons_of_mem _ hq))
    · rw [hc]
      exact ih _ (good_transferPost s p.frm p.toAddr p.token_id nft h
        (hns p (List.mem_cons_self _ _)) hget hown)
        (fun q hq => hns q (List.mem_cons_of_mem _ hq))

theorem good_batch (s : Storage) (ps : List TransferParams) (h : GoodState s)
    (hlen : ps.length ≤ MAX_BATCH_SIZE)
    (hvalid : ∀ p ∈ ps, ∃ nft, alGet? s.nfts p.token_id = some nft ∧ nft.owner = p.frm)
    (hnd : (ps.map TransferParams.token_id).Nodup)
    (hns : ∀ p ∈ ps, p.frm ≠ p.toAddr) :
    GoodState (batch_transfer s ps BatchMode.Atomic).2 := by
  have hg : s.guard = false := h.2.2.2.2.2
  have hout : ∀ a, outCount ps a ≤ s.balanceOf a :=
    fun a => le_trans (outCount_le_ownedCount s ps hvalid hnd a) (h.2.1 a)
  obtain ⟨_, _, h3, h4, _, h6, _, h8, h9, _, _, h12⟩ :=
    batch_atomic_ok_spec s ps hg hlen hvalid hnd hns hout
  have hseq : GoodState (seqTransfers s ps) := good_seqTransfers s ps h hns
  refine ⟨?_, ?_, ?_, ?_, ?_, h6⟩
  · rw [h8, h9]
    exact h.1
  · intro a
    have honc : ownedCount (batch_transfer s ps BatchMode.Atomic).2 a =
        ownedCount (seqTransfers s ps) a := by
      simp only [ownedCount, h3]
    rw [honc, Storage.balanceOf] at *
    rw [show alGetD (batch_transfer s ps BatchMode.Atomic).2.balances a 0 =
      (seqTransfers s ps).balanceOf a from h4 a]
    exact hseq.2.1 a
  · intro k hk
    rw [h9, ← h12]
    have hk2 : k ∈ alKeys (seqTransfers s ps).nfts := by
      rw [← h3]
      exact hk
    exact hseq.2.2.1 k hk2
  · intro k hk
    rw [h9, ← h12] at hk
    have := hseq.2.2.2.1 k hk
    rw [← h3] at this
    exact this
  · have : alKeys (batch_transfer s ps BatchMode.Atomic).2.nfts =
        alKeys (seqTransfers s ps).nfts := by rw [h3]
    rw [this]
    exact hseq.2.2.2.2.1

/-- C5 (amended): in every state reachable from a freshly initialized
registry by mint, settle, non-self single transfers, and Atomic batch
transfers of pairwise distinct tokens with valid entries and no
self-transfer, the sum of all stored per-owner balance counters equals the
number of minted tokens, and each minted token id has exactly one owner
record.  The original claim, covering self-transfers, is refuted by the
counterexample. -/
theorem claim_C5 (s : Storage) (h : ReachableNoSelf s) :
    alValsSum s.balances = s.tokenCounter ∧
    ∀ t, t < s.tokenCounter → (alKeys s.nfts).count t = 1 := by
  have hgood : GoodState s := by
    induction h with
    | init admin => exact good_init admin
    | mint s2 now owner cid d ml ct amt asset pen _ ih =>
      rcases mint_snd_cases s2 now owner cid d ml ct amt asset pen ih.2.2.2.2.2 with hc | hc
      · rw [hc]
        exact ih
      · rw [hc]
        exact good_mintPost _ _ _ _ _ _ _ _ _ _ ih
    | transfer s2 f t tid _ hft ih =>
      rcases transfer_snd_cases s2 f t tid ih.2.2.2.2.2 with hc | ⟨nft, hget, hown, hc⟩
      · rw [hc]
        exact ih
      · rw [hc]
        exact good_transferPost _ _ _ _ _ ih hft hget hown
    | settle s2 now tid _ ih =>
      rcases settle_snd_cases s2 now tid ih.2.2.2.2.2 with hc | ⟨nft, hget, hc⟩
      · rw [hc]
        exact ih
      · rw [hc]
        exact good_settlePost _ _ _ ih hget
    | batch s2 ps _ hlen hvalid hnd hns ih =>
      exact good_batch s2 ps ih hlen hvalid hnd hns
  exact ⟨hgood.1, fun t ht =>
    List.count_eq_one_of_mem hgood.2.2.2.2.1 (hgood.2.2.2.1 t ht)⟩

/-- Counterexample to C5 as stated: the self-transfer of token 0 by its
owner is a single `transfer` operation on a state reached by initialize and
mint, yet after it the sum of the balance counters is 2 while only one
token has been minted — the operation does not preserve the claimed
invariant. -/
theorem claim_C5_counterexample :
    alValsSum (transfer (mint (init_contract emptyStorage 9).2
      0 1 "c" 30 10 "safe" 1000 7 5).2 1 1 0).2.balances = 2 ∧
    (transfer (mint (init_contract emptyStorage 9).2
      0 1 "c" 30 10 "safe" 1000 7 5).2 1 1 0).2.tokenCounter = 1 ∧
    alValsSum (transfer (mint (init_contract emptyStorage 9).2
      0 1 "c" 30 10 "safe" 1000 7 5).2 1 1 0).2.balances ≠
    (transfer (mint (init_contract emptyStorage 9).2
      0 1 "c" 30 10 "safe" 1000 7 5).2 1 1 0).2.tokenCounter :=
  ⟨rfl, rfl, by decide⟩

/-- Witness for C5 at a concrete input: the state after initialize and one
mint is reachable without self-transfers, so its balance sum equals its
token counter and every minted id has exactly one record. -/
theorem claim_C5_witness :
    alValsSum (mint (init_contract emptyStorage 9).2
      0 1 "c" 30 10 "safe" 1000 7 5).2.balances =
      (mint (init_contract emptyStorage 9).2
        0 1 "c" 30 10 "safe" 1000 7 5).2.tokenCounter ∧
    (alKeys (mint (init_contract emptyStorage 9).2
      0 1 "c" 30 10 "safe" 1000 7 5).2.nfts).count 0 = 1 :=
  ⟨(claim_C5 _ (ReachableNoSelf.mint _ 0 1 "c" 30 10 "safe" 1000 7 5
      (ReachableNoSelf.init 9))).1,
    (claim_C5 _ (ReachableNoSelf.mint _ 0 1 "c" 30 10 "safe" 1000 7 5
      (ReachableNoSelf.init 9))).2 0 (by decide)⟩

end CommitmentNFT
